import Mathlib

/-!
Verification of the MedLens lab-result normalization and trend-derivation
pipeline.  The definitions below are a shallow embedding of the TypeScript
source: `parseExtractionData` / `parseLabValue` / `validateStatus` /
`validateCategory` / `validateDocumentType` / `generateAlerts` from
`src/lib/medgemma.ts`, `parseExtractionResponse` from the client-side
MedGemma module, and `getLabTrends` from the zustand store module.

Modelling conventions:
* JavaScript strings are modelled as `List Char`.
* JavaScript numbers are modelled as rationals (`ℚ`).  All numeric values
  reachable in this pipeline come from JSON number literals or from
  `parseFloat` on decimal strings, so they are finite decimal rationals;
  `NaN` cannot be stored (every `NaN`-producing site in the source
  immediately replaces it, see the comments at the relevant definitions).
* JSON values are the inductive type `Json`; `undefined` (an absent
  property) is modelled as `Option Json = none`.
* Fresh `uuid` identifiers and `createdAt` timestamps are identity-only
  metadata and are omitted from the pure model; `new Date()` used for the
  date default is passed in explicitly as a `today` parameter.
-/

namespace MedLens

/-! ### Executable rational arithmetic

The standard `Rat` operations (`Rat.add`, `Rat.mul`, …) are marked
`@[irreducible]`, so concrete runs of the embedded code could not be
checked by `decide`/`rfl`.  The operations below are the same operations
written through the reducible smart constructor `mkRat`; the `…_eq`
bridge lemmas identify them with the standard ones. -/

/-- Addition on `ℚ` through `mkRat`. -/
def qAdd (a b : ℚ) : ℚ := mkRat (a.num * b.den + b.num * a.den) (a.den * b.den)

/-- Multiplication on `ℚ` through `mkRat`. -/
def qMul (a b : ℚ) : ℚ := mkRat (a.num * b.num) (a.den * b.den)

/-- Negation on `ℚ` through `mkRat`. -/
def qNeg (a : ℚ) : ℚ := mkRat (-a.num) a.den

/-- Subtraction on `ℚ` through `mkRat`. -/
def qSub (a b : ℚ) : ℚ := qAdd a (qNeg b)

/-- Division on `ℚ` through `mkRat` (`a / 0 = 0`). -/
def qDiv (a b : ℚ) : ℚ :=
  mkRat (a.num * b.den * (if b.num < 0 then -1 else 1)) (a.den * b.num.natAbs)

/-- Absolute value on `ℚ` through `mkRat`. -/
def qAbs (a : ℚ) : ℚ := mkRat a.num.natAbs a.den

/-- Order on `ℚ` by cross-multiplication. -/
def qLe (a b : ℚ) : Prop := a.num * b.den ≤ b.num * a.den

/-- Strict order on `ℚ` by cross-multiplication. -/
def qLt (a b : ℚ) : Prop := a.num * b.den < b.num * a.den

instance (a b : ℚ) : Decidable (qLe a b) := by unfold qLe; infer_instance

instance (a b : ℚ) : Decidable (qLt a b) := by unfold qLt; infer_instance

/-- Natural powers on `ℚ` through `qMul`. -/
def qPowN (a : ℚ) : Nat → ℚ
  | 0 => 1
  | n + 1 => qMul a (qPowN a n)

/-- Integer powers on `ℚ`. -/
def qPowZ (a : ℚ) : Int → ℚ
  | .ofNat n => qPowN a n
  | .negSucc n => qDiv 1 (qPowN a (n + 1))

theorem qAdd_eq (a b : ℚ) : qAdd a b = a + b := by
  unfold qAdd
  rw [Rat.mkRat_eq_div]
  push_cast
  conv_rhs => rw [← Rat.num_div_den a, ← Rat.num_div_den b]
  field_simp

theorem qMul_eq (a b : ℚ) : qMul a b = a * b := by
  unfold qMul
  rw [Rat.mkRat_eq_div]
  push_cast
  conv_rhs => rw [← Rat.num_div_den a, ← Rat.num_div_den b]
  field_simp

theorem qNeg_eq (a : ℚ) : qNeg a = -a := by
  unfold qNeg
  rw [Rat.mkRat_eq_div]
  push_cast
  rw [neg_div, Rat.num_div_den]

theorem qSub_eq (a b : ℚ) : qSub a b = a - b := by
  unfold qSub; rw [qAdd_eq, qNeg_eq, sub_eq_add_neg]

theorem qAbs_eq (a : ℚ) : qAbs a = |a| := by
  unfold qAbs
  rw [Rat.mkRat_eq_div]
  rcases abs_cases a with ⟨h1, h2⟩ | ⟨h1, h2⟩
  · rw [h1, Int.natAbs_of_nonneg (Rat.num_nonneg.mpr h2)]
    exact Rat.num_div_den a
  · rw [h1, Int.ofNat_natAbs_of_nonpos (Rat.num_nonpos.mpr (le_of_lt h2))]
    push_cast
    rw [neg_div, Rat.num_div_den]

theorem qDiv_eq (a b : ℚ) : qDiv a b = a / b := by
  unfold qDiv
  rcases lt_trichotomy b.num 0 with h | h | h
  · rw [if_pos h, Rat.mkRat_eq_div]
    push_cast [Int.cast_natAbs]
    rw [abs_of_neg (show (b.num : ℚ) < 0 by exact_mod_cast h)]
    conv_rhs => rw [← Rat.num_div_den a, ← Rat.num_div_den b]
    have hb : (b.num : ℚ) ≠ 0 := by exact_mod_cast ne_of_lt h
    field_simp
  · rw [Rat.num_eq_zero] at h
    subst h
    simp [mkRat]
  · rw [if_neg (by omega), Rat.mkRat_eq_div]
    push_cast [Int.cast_natAbs]
    rw [abs_of_pos (show (0 : ℚ) < b.num by exact_mod_cast h)]
    conv_rhs => rw [← Rat.num_div_den a, ← Rat.num_div_den b]
    have hb : (b.num : ℚ) ≠ 0 := by exact_mod_cast ne_of_gt h
    field_simp

theorem qLe_iff (a b : ℚ) : qLe a b ↔ a ≤ b := by
  unfold qLe
  rw [Rat.le_def]

theorem qLt_iff (a b : ℚ) : qLt a b ↔ a < b := by
  unfold qLt
  rw [Rat.lt_def]

theorem qPowN_eq (a : ℚ) (n : Nat) : qPowN a n = a ^ n := by
  induction n with
  | zero => rfl
  | succ n ih => rw [qPowN, qMul_eq, ih, pow_succ, mul_comm]

theorem qPowZ_eq (a : ℚ) (z : Int) : qPowZ a z = a ^ z := by
  cases z with
  | ofNat n => rw [qPowZ, qPowN_eq, Int.ofNat_eq_coe, zpow_natCast]
  | negSucc n => rw [qPowZ, qDiv_eq, qPowN_eq, zpow_negSucc, one_div]

/-- JavaScript strings, modelled as lists of characters. -/
abbrev Str := List Char

/-- Conversion from Lean string literals to the model's string type. -/
def strL (s : String) : Str := s.toList

/-- ASCII decimal digit test. -/
def isDigitCh (c : Char) : Bool := '0' ≤ c ∧ c ≤ '9'

/-- The whitespace characters recognised by `String.prototype.trim` that
can occur in this pipeline (space, tab, LF, CR, VT, FF). -/
def isTrimWs (c : Char) : Bool :=
  c = ' ' ∨ c = '\t' ∨ c = '\n' ∨ c = '\r' ∨ c = Char.ofNat 11 ∨ c = Char.ofNat 12

/-- Drop trailing characters satisfying `p` (helper for `trimJs`). -/
def dropWhileEndCh (p : Char → Bool) (s : Str) : Str :=
  (s.reverse.dropWhile p).reverse

/-- `String.prototype.trim`. -/
def trimJs (s : Str) : Str :=
  dropWhileEndCh isTrimWs (s.dropWhile isTrimWs)

/-- `String.prototype.toLowerCase` (ASCII range; the pipeline's test names
are ASCII). -/
def lowerStr (s : Str) : Str := s.map Char.toLower

/-- JSON values as produced by `JSON.parse`.  Object fields keep source
order, as JavaScript objects do. -/
inductive Json where
  | null
  | bool (b : Bool)
  | num (q : ℚ)
  | str (s : Str)
  | arr (elems : List Json)
  | obj (fields : List (Str × Json))

/-- JavaScript truthiness of a JSON value.  (`NaN`, the only other falsy
number, cannot appear: see the module conventions.) -/
def jsTruthy : Json → Bool
  | .null => false
  | .bool b => b
  | .num q => decide (q ≠ 0)
  | .str s => decide (s ≠ [])
  | .arr _ => true
  | .obj _ => true

/-- Truthiness of a possibly-`undefined` value. -/
def jsTruthyOpt : Option Json → Bool
  | none => false
  | some v => jsTruthy v

/-- Property read on a value that is known not to be `null`
(objects look the key up; primitives and arrays yield `undefined` for the
property names used by this pipeline). -/
def jsGetF (v : Json) (k : Str) : Option Json :=
  match v with
  | .obj fs => (fs.find? (fun p => p.1 = k)).map Prod.snd
  | _ => none

/-- Errors of the normalizer.  `malformedExtraction` is the explicit
`throw new Error('Could not parse JSON from response')`; `syntaxError` is
a `JSON.parse` `SyntaxError` escaping from the brace-span fallback;
`typeError` is a JavaScript `TypeError` (property access on `null`, or
calling `.map` on a non-array). -/
inductive NormError where
  | malformedExtraction
  | syntaxError
  | typeError
deriving DecidableEq

/-- Property access `v.k`: throws `TypeError` when `v` is `null`. -/
def jsGet (v : Json) (k : Str) : Except NormError (Option Json) :=
  match v with
  | .null => .error .typeError
  | v => .ok (jsGetF v k)

/-- Decimal digit string of a natural number. -/
def natDigits (n : Nat) : Str := (toString n).toList

/-- Left-pad with `'0'` to length `n`. -/
def padZeros (n : Nat) (s : Str) : Str :=
  List.replicate (n - s.length) '0' ++ s

/-- `String(n)` for a JavaScript number, restricted to the finite decimal
rationals reachable in this pipeline: integers print their digits, other
terminating decimals print in positional notation (`1.5`, `0.05`, …).
Non-terminating rationals (unreachable from JSON/`parseFloat` input) fall
back to a `num/den` rendering. -/
def ratToString (q : ℚ) : Str :=
  let sign : Str := if qLt q 0 then ['-'] else []
  let a : ℚ := qAbs q
  if a.den = 1 then sign ++ natDigits a.num.toNat
  else
    match (List.range 40).find? (fun e => (qMul a (qPowN 10 e)).den = 1) with
    | some e =>
        let m : Nat := (qMul a (qPowN 10 e)).num.toNat
        let ds : Str := padZeros (e + 1) (natDigits m)
        sign ++ ds.take (ds.length - e) ++ ['.'] ++ ds.drop (ds.length - e)
    | none => sign ++ natDigits a.num.toNat ++ ['/'] ++ natDigits a.den

/-- `String(value)` on a JSON value.  Arrays render as the comma-join of
their elements, with `null` elements rendering empty, as
`Array.prototype.toString` does. -/
def jsToString : Json → Str
  | .null => strL "null"
  | .bool true => strL "true"
  | .bool false => strL "false"
  | .num q => ratToString q
  | .str s => s
  | .arr l =>
      (l.attach.map (fun x =>
        match x with
        | ⟨.null, _⟩ => ([] : Str)
        | ⟨v, _⟩ => jsToString v)).intersperse [','] |>.flatten
  | .obj _ => strL "[object Object]"

/-- Numeric value of a digit string. -/
def digitsVal (ds : Str) : Nat :=
  ds.foldl (fun a c => a * 10 + (c.toNat - 48)) 0

/-- `parseFloat` on a string: skip leading whitespace, then read the
longest prefix of the form `[+-]? digits [. digits]? ([eE][+-]?digits)?`;
`none` models `NaN` (no digit found).  (The `Infinity` literal, which
`parseFloat` also accepts, has no finite rational value and is outside
this model.) -/
def jsParseFloat (s : Str) : Option ℚ :=
  let s1 := s.dropWhile isTrimWs
  let sgn : ℚ := match s1 with
    | '-' :: _ => -1
    | _ => 1
  let s2 : Str := match s1 with
    | '-' :: r => r
    | '+' :: r => r
    | r => r
  let intDs := s2.takeWhile isDigitCh
  let s3 := s2.drop intDs.length
  let fracDs : Str := match s3 with
    | '.' :: r => r.takeWhile isDigitCh
    | _ => []
  let s4 : Str := match s3 with
    | '.' :: r => r.drop fracDs.length
    | r => r
  if intDs = [] ∧ fracDs = [] then none
  else
    let mant : ℚ :=
      qAdd (digitsVal intDs : ℚ) (qDiv (digitsVal fracDs : ℚ) (qPowN 10 fracDs.length))
    let expZ : ℤ := match s4 with
      | 'e' :: r => expVal r
      | 'E' :: r => expVal r
      | _ => 0
    some (qMul (qMul sgn mant) (qPowZ 10 expZ))
where
  /-- Exponent part after `e`/`E`: signed digits, `0` when absent or
  malformed (then the exponent is simply not part of the parsed prefix). -/
  expVal (r : Str) : ℤ :=
    let esgn : ℤ := match r with
      | '-' :: _ => -1
      | _ => 1
    let r2 : Str := match r with
      | '-' :: t => t
      | '+' :: t => t
      | t => t
    let eds := r2.takeWhile isDigitCh
    if eds = [] then 0 else esgn * digitsVal eds

/-- A stored lab value: `number | string`. -/
inductive LabValue where
  | num (q : ℚ)
  | str (s : Str)
deriving DecidableEq

/-- `parseLabValue` from `medgemma.ts` (also present verbatim in the
client-side module): numbers pass through, strings are `parseFloat`ed with
string fallback, anything else is `String(value)`; the `undefined` input
renders as the string `"undefined"`. -/
def parseLabValue : Option Json → LabValue
  | some (.num q) => .num q
  | some (.str s) =>
      match jsParseFloat s with
      | some q => .num q
      | none => .str s
  | some v => .str (jsToString v)
  | none => .str (strL "undefined")

/-- The five valid status strings. -/
def validStatuses : List Str :=
  [strL "normal", strL "low", strL "high", strL "critical", strL "unknown"]

/-- The eleven valid category strings. -/
def validCategories : List Str :=
  [strL "metabolic", strL "lipid", strL "cbc", strL "thyroid", strL "liver",
   strL "kidney", strL "cardiac", strL "inflammatory", strL "vitamin",
   strL "hormone", strL "other"]

/-- The five valid document-type strings. -/
def validDocumentTypes : List Str :=
  [strL "lab_report", strL "discharge_summary", strL "imaging",
   strL "prescription", strL "other"]

/-- `validateStatus`: `valid.includes(status) ? status : 'unknown'`
(a non-string input is never `includes`-equal to a valid string). -/
def validateStatus : Option Json → Str
  | some (.str s) => if s ∈ validStatuses then s else strL "unknown"
  | _ => strL "unknown"

/-- `validateCategory`. -/
def validateCategory : Option Json → Str
  | some (.str s) => if s ∈ validCategories then s else strL "other"
  | _ => strL "other"

/-- `validateDocumentType`. -/
def validateDocumentType : Option Json → Str
  | some (.str s) => if s ∈ validDocumentTypes then s else strL "other"
  | _ => strL "other"

/-- `parseFloat` applied to an arbitrary JavaScript value, which coerces
through `String(value)` first.  A number round-trips exactly (all
reachable numbers are finite decimals). -/
def jsParseFloatVal : Option Json → Option ℚ
  | none => none
  | some (.num q) => some q
  | some (.str s) => jsParseFloat s
  | some .null => none
  | some (.bool _) => none
  | some (.arr l) => jsParseFloat (jsToString (.arr l))
  | some (.obj _) => none

/-- One reference-range bound: `parseFloat(x) || undefined`.  Both `NaN`
and `0` are falsy, so a bound that fails to parse, is absent, or parses to
zero becomes `undefined`. -/
def parseBound (o : Option Json) : Option ℚ :=
  match jsParseFloatVal o with
  | some q => if q = 0 then none else some q
  | none => none

/-- `x || dflt` for string-typed fields: a truthy string passes through,
everything falsy yields the default.  (A truthy non-string passes through
unchanged in JavaScript; the embedding types the field as a string and
renders it with `String(·)`, which no claim exercises.) -/
def jsOrStr (o : Option Json) (dflt : Str) : Str :=
  match o with
  | some (.str s) => if s = [] then dflt else s
  | some v => if jsTruthy v then jsToString v else dflt
  | none => dflt

/-- `x || dflt` for raw values. -/
def jsOr (o : Option Json) (dflt : Json) : Json :=
  match o with
  | some v => if jsTruthy v then v else dflt
  | none => dflt

/-- A normalized reference range (`low`/`high` optional, as emitted by the
normalizer). -/
structure RefRange where
  low : Option ℚ
  high : Option ℚ
  text : Str
deriving DecidableEq

/-- A normalized lab observation.  The fresh `uuid` assigned by the source
is identity-only and omitted. -/
structure LabResult where
  testName : Str
  value : LabValue
  unit : Str
  referenceRange : Option RefRange
  status : Str
  category : Str
deriving DecidableEq

/-- One element of the `labResults` mapping inside `parseExtractionData`:
every property access throws `TypeError` when the element is `null`. -/
def parseLab (lab : Json) : Except NormError LabResult := do
  let tn ← jsGet lab (strL "testName")
  let v ← jsGet lab (strL "value")
  let u ← jsGet lab (strL "unit")
  let rr ← jsGet lab (strL "referenceRange")
  let st ← jsGet lab (strL "status")
  let cat ← jsGet lab (strL "category")
  .ok
    { testName := jsOrStr tn (strL "Unknown Test")
      value := parseLabValue v
      unit := jsOrStr u []
      referenceRange :=
        match rr with
        | some rv =>
            if jsTruthy rv then
              some
                { low := parseBound (jsGetF rv (strL "low"))
                  high := parseBound (jsGetF rv (strL "high"))
                  text := jsOrStr (jsGetF rv (strL "text")) [] }
            else none
        | none => none
      status := validateStatus st
      category := validateCategory cat }

/-- The `structuredData` record.  Fields other than `labResults` are
carried through raw (`x || []` defaulting), exactly as in the source. -/
structure StructuredData where
  patientInfo : Option Json
  labResults : List LabResult
  medications : Json
  diagnoses : Json
  vitals : Json
  procedures : Json
  imagingFindings : Json
  recommendations : Json

/-- The `extractedData` record. -/
structure ExtractedData where
  rawText : Str
  structuredData : StructuredData
  confidence : ℚ

/-- The full normalizer result. -/
structure ParsedDoc where
  extractedData : ExtractedData
  documentType : Str
  title : Str
  date : Str
  provider : Option Json
  facility : Option Json

/-- The `labResults` constant of `parseExtractionData`:
`(parsed.labResults || []).map(lab => ...)`, which throws `TypeError` on a
truthy non-array and on property access on a `null` `parsed`. -/
def labResultsOf (parsed : Json) : Except NormError (List LabResult) := do
  let lrField ← jsGet parsed (strL "labResults")
  let labJsons ←
    match lrField with
    | some v =>
        if jsTruthy v then
          match v with
          | .arr l => Except.ok l
          | _ => Except.error NormError.typeError
        else .ok []
    | none => .ok ([] : List Json)
  labJsons.mapM parseLab

/-- `parseExtractionData` from `medgemma.ts` (the same record-building
code appears inline in `parseExtractionResponse`).  `today` models
`new Date().toISOString().split('T')[0]`. -/
def parseExtractionData (today : Str) (parsed : Json) : Except NormError ParsedDoc := do
  let labResults ← labResultsOf parsed
  let rawText ← jsGet parsed (strL "rawText")
  let patientInfo ← jsGet parsed (strL "patientInfo")
  let medications ← jsGet parsed (strL "medications")
  let diagnoses ← jsGet parsed (strL "diagnoses")
  let vitals ← jsGet parsed (strL "vitals")
  let procedures ← jsGet parsed (strL "procedures")
  let imagingFindings ← jsGet parsed (strL "imagingFindings")
  let recommendations ← jsGet parsed (strL "recommendations")
  let documentType ← jsGet parsed (strL "documentType")
  let title ← jsGet parsed (strL "title")
  let date ← jsGet parsed (strL "date")
  let provider ← jsGet parsed (strL "provider")
  let facility ← jsGet parsed (strL "facility")
  .ok
    { extractedData :=
        { rawText := jsOrStr rawText []
          structuredData :=
            { patientInfo := patientInfo
              labResults := labResults
              medications := jsOr medications (.arr [])
              diagnoses := jsOr diagnoses (.arr [])
              vitals := jsOr vitals (.arr [])
              procedures := jsOr procedures (.arr [])
              imagingFindings := jsOr imagingFindings (.arr [])
              recommendations := jsOr recommendations (.arr []) }
          confidence := mkRat 92 100 }
      documentType := validateDocumentType documentType
      title := jsOrStr title (strL "Medical Document")
      date := jsOrStr date today
      provider := provider
      facility := facility }

/-! ### JSON.parse model -/

/-- JSON whitespace (space, tab, LF, CR). -/
def skipWs (cs : Str) : Str :=
  cs.dropWhile (fun c => c = ' ' ∨ c = '\t' ∨ c = '\n' ∨ c = '\r')

/-- Value of a hexadecimal digit. -/
def hexVal (c : Char) : Option Nat :=
  if isDigitCh c then some (c.toNat - 48)
  else if 'a' ≤ c ∧ c ≤ 'f' then some (c.toNat - 87)
  else if 'A' ≤ c ∧ c ≤ 'F' then some (c.toNat - 55)
  else none

/-- Body of a JSON string after the opening quote: returns the decoded
string and the remaining input.  Raw control characters are rejected, the
standard escapes are decoded. -/
def parseStrBody : Str → Str → Option (Str × Str)
  | _, [] => none
  | acc, '"' :: rest => some (acc, rest)
  | acc, '\\' :: rest =>
      match rest with
      | [] => none
      | e :: rest2 =>
        match e with
        | '"' => parseStrBody (acc ++ ['"']) rest2
        | '\\' => parseStrBody (acc ++ ['\\']) rest2
        | '/' => parseStrBody (acc ++ ['/']) rest2
        | 'b' => parseStrBody (acc ++ [Char.ofNat 8]) rest2
        | 'f' => parseStrBody (acc ++ [Char.ofNat 12]) rest2
        | 'n' => parseStrBody (acc ++ ['\n']) rest2
        | 'r' => parseStrBody (acc ++ ['\r']) rest2
        | 't' => parseStrBody (acc ++ ['\t']) rest2
        | 'u' =>
          match rest2 with
          | a :: b :: c :: d :: rest3 =>
            match hexVal a, hexVal b, hexVal c, hexVal d with
            | some va, some vb, some vc, some vd =>
                parseStrBody
                  (acc ++ [Char.ofNat (((va * 16 + vb) * 16 + vc) * 16 + vd)]) rest3
            | _, _, _, _ => none
          | _ => none
        | _ => none
  | acc, c :: rest =>
      if c.toNat < 32 then none else parseStrBody (acc ++ [c]) rest

/-- A JSON number literal: `-? int frac? exp?` with JSON's restrictions
(no leading `+`, no leading zeros, at least one digit after `.` and after
`e`). -/
def parseJsonNum (cs : Str) : Option (Json × Str) :=
  let neg : Bool := match cs with | '-' :: _ => true | _ => false
  let s1 : Str := match cs with | '-' :: r => r | r => r
  let intDs := s1.takeWhile isDigitCh
  if intDs = [] then none
  else if 2 ≤ intDs.length ∧ intDs.head? = some '0' then none
  else
    let s2 := s1.drop intDs.length
    match s2 with
    | '.' :: r =>
        let fracDs := r.takeWhile isDigitCh
        if fracDs = [] then none
        else finishNum neg intDs fracDs (r.drop fracDs.length)
    | _ => finishNum neg intDs [] s2
where
  /-- Attach an optional exponent and build the rational value. -/
  finishNum (neg : Bool) (intDs fracDs : Str) (s : Str) : Option (Json × Str) :=
    let base : ℚ :=
      qAdd (digitsVal intDs : ℚ) (qDiv (digitsVal fracDs : ℚ) (qPowN 10 fracDs.length))
    let signed : ℚ := if neg then qNeg base else base
    match s with
    | e :: r =>
        if e = 'e' ∨ e = 'E' then
          let esgn : ℤ := match r with | '-' :: _ => -1 | _ => 1
          let r2 : Str := match r with | '-' :: t => t | '+' :: t => t | t => t
          let eds := r2.takeWhile isDigitCh
          if eds = [] then none
          else some (.num (qMul signed (qPowZ 10 (esgn * digitsVal eds))), r2.drop eds.length)
        else some (.num signed, e :: r)
    | [] => some (.num signed, [])

/-- Parser modes: a value, the members of an object (after `{`), or the
elements of an array (after `[`). -/
inductive ParseMode where
  | val
  | members (acc : List (Str × Json))
  | elems (acc : List Json)

/-- Recursive-descent JSON parser, fuel-indexed so that the definition is
structurally recursive (and reduces definitionally).  Between two
recursive calls at least one input character is consumed per two fuel
units, so `2 * length + 2` fuel always suffices. -/
def parseJ : Nat → ParseMode → Str → Option (Json × Str)
  | 0, _, _ => none
  | fuel + 1, .val, cs =>
    (match skipWs cs with
     | [] => none
     | 'n' :: rest => if rest.take 3 = strL "ull" then some (.null, rest.drop 3) else none
     | 't' :: rest => if rest.take 3 = strL "rue" then some (.bool true, rest.drop 3) else none
     | 'f' :: rest => if rest.take 4 = strL "alse" then some (.bool false, rest.drop 4) else none
     | '"' :: rest => (parseStrBody [] rest).map (fun p => (.str p.1, p.2))
     | '{' :: rest =>
        (match skipWs rest with
         | '}' :: r2 => some (.obj [], r2)
         | _ => parseJ fuel (.members []) rest)
     | '[' :: rest =>
        (match skipWs rest with
         | ']' :: r2 => some (.arr [], r2)
         | _ => parseJ fuel (.elems []) rest)
     | c :: rest => if c = '-' ∨ isDigitCh c then parseJsonNum (c :: rest) else none)
  | fuel + 1, .members acc, cs =>
    (match skipWs cs with
     | '"' :: rest =>
       (match parseStrBody [] rest with
        | none => none
        | some (k, r1) =>
          match skipWs r1 with
          | ':' :: r2 =>
            (match parseJ fuel .val r2 with
             | none => none
             | some (v, r3) =>
               match skipWs r3 with
               | ',' :: r4 => parseJ fuel (.members (acc ++ [(k, v)])) r4
               | '}' :: r4 => some (.obj (acc ++ [(k, v)]), r4)
               | _ => none)
          | _ => none)
     | _ => none)
  | fuel + 1, .elems acc, cs =>
    (match parseJ fuel .val cs with
     | none => none
     | some (v, r1) =>
       match skipWs r1 with
       | ',' :: r2 => parseJ fuel (.elems (acc ++ [v])) r2
       | ']' :: r2 => some (.arr (acc ++ [v]), r2)
       | _ => none)

/-- `JSON.parse`: parse one value and require only whitespace after it;
`none` models a thrown `SyntaxError`. -/
def jsonParse (cs : Str) : Option Json :=
  match parseJ (2 * cs.length + 2) .val cs with
  | some (v, rest) => if skipWs rest = [] then some v else none
  | none => none

/-! ### parseExtractionResponse -/

/-- The fallback `jsonText.match(/\x7b[\s\S]*\x7d/)`: the span from the
first `{` to the last `}` when the latter comes after the former. -/
def braceSpan (cs : Str) : Option Str :=
  let t := ((cs.dropWhile (fun c => c ≠ '{')).reverse.dropWhile (fun c => c ≠ '}')).reverse
  if t = [] then none else some t

/-- `if (jsonText.startsWith('BTK-json')) jsonText = jsonText.slice(7)`
(with `BTK` the three-backtick fence marker). -/
def stripFence7 (t : Str) : Str :=
  if (strL "```json").isPrefixOf t then t.drop 7 else t

/-- `if (jsonText.startsWith(BTK)) jsonText = jsonText.slice(3)`. -/
def stripFence3 (t : Str) : Str :=
  if (strL "```").isPrefixOf t then t.drop 3 else t

/-- `if (jsonText.endsWith(BTK)) jsonText = jsonText.slice(0, -3)`. -/
def stripFenceEnd (t : Str) : Str :=
  if (strL "```").isSuffixOf t then t.take (t.length - 3) else t

/-- The fence-stripping prelude of `parseExtractionResponse`:
trim, drop a leading three-backtick-`json` or bare three-backtick marker,
drop a trailing three-backtick marker, trim again (the four statements
applied in source order). -/
def strip (s : Str) : Str :=
  trimJs (stripFenceEnd (stripFence3 (stripFence7 (trimJs s))))

/-- The `try JSON.parse / catch → brace-span fallback` block: recover a
JSON value from the stripped text.  A missing span throws the explicit
`'Could not parse JSON from response'` error (`malformedExtraction`);
an unparseable span lets the second `JSON.parse`'s `SyntaxError` escape.
`recoverSpan` is the `catch` branch over the optional brace span. -/
def recoverSpan : Option Str → Except NormError Json
  | some sp =>
      match jsonParse sp with
      | some v => .ok v
      | none => .error .syntaxError
  | none => .error .malformedExtraction

/-- The whole recovery block: `JSON.parse`, falling back to the span. -/
def recoverJson (t : Str) : Except NormError Json :=
  match jsonParse t with
  | some v => .ok v
  | none => recoverSpan (braceSpan t)

/-- `parseExtractionResponse` from the client-side MedGemma module:
strip fences, recover a JSON value, then build the normalized record
(the record-building code is the same as `parseExtractionData`). -/
def parseExtractionResponse (today : Str) (s : Str) : Except NormError ParsedDoc :=
  match recoverJson (strip s) with
  | .ok v => parseExtractionData today v
  | .error e => .error e

/-! ### Trend engine (`getLabTrends` from the store module) -/

/-- A stored document: its clinically relevant date (the source's date
string, modelled as the `new Date(...).getTime()` timestamp it is
compared by) and its normalized lab observations
(`doc.extractedData.structuredData.labResults || []`). -/
structure MedDoc where
  date : Int
  labResults : List LabResult
deriving DecidableEq

/-- One `{result, date}` entry of the grouping map. -/
abbrev Entry := LabResult × Int

/-- A `{date, value, status}` trend data point. -/
structure DataPoint where
  date : Int
  value : ℚ
  status : Str
deriving DecidableEq

/-- A trend's `{low, high}` display range. -/
structure TrendRange where
  low : ℚ
  high : ℚ
deriving DecidableEq

/-- A derived lab trend. -/
structure LabTrend where
  testName : Str
  category : Str
  unit : Str
  dataPoints : List DataPoint
  currentStatus : Str
  referenceRange : Option TrendRange
deriving DecidableEq

/-- All `(lower-cased testName, {result, date})` entries of all documents,
in document order. -/
def collectEntries (documents : List MedDoc) : List (Str × Entry) :=
  (documents.map (fun doc =>
    doc.labResults.map (fun r => (lowerStr r.testName, (r, doc.date))))).flatten

/-- `Map.get / push / Map.set` on an insertion-ordered association list:
append the entry to an existing key's list, or append a new key at the
end. -/
def insertEntry (m : List (Str × List Entry)) (k : Str) (e : Entry) :
    List (Str × List Entry) :=
  match m with
  | [] => [(k, [e])]
  | (k', es) :: rest =>
      if k' = k then (k', es ++ [e]) :: rest
      else (k', es) :: insertEntry rest k e

/-- The `labResultsByTest` map: groups in key-insertion order, each
group's entries in encounter order (a JavaScript `Map` iterates in
insertion order). -/
def groupEntries (documents : List MedDoc) : List (Str × List Entry) :=
  (collectEntries documents).foldl (fun m ke => insertEntry m ke.1 ke.2) []

/-- Insert an entry after every element whose date is `≤` its own
(the stable position). -/
def insertByDate (e : Entry) : List Entry → List Entry
  | [] => [e]
  | x :: xs => if x.2 ≤ e.2 then x :: insertByDate e xs else e :: x :: xs

/-- `results.sort((a, b) => new Date(a.date).getTime() - new
Date(b.date).getTime())`: JavaScript's sort is stable, and a stable sort
ascending by date is exactly left-fold insertion. -/
def sortByDate (l : List Entry) : List Entry :=
  l.foldl (fun acc e => insertByDate e acc) []

/-- The data-point value:
`typeof v === 'number' ? v : parseFloat(String(v)) || 0`.
`String` of a string is itself, and `|| 0` sends both `NaN` and a parsed
`0` to `0`, which is exactly `Option.getD 0`. -/
def pointValue : LabValue → ℚ
  | .num q => q
  | .str s => (jsParseFloat s).getD 0

/-- The trend-direction computation: `unknown` below two points, else the
if-chain over the last two points and the first observation's status.
(The source guards with `dataPoints.length >= 2` and indexes
`length - 1` / `length - 2`; both lookups succeed exactly then.
`0.05` is the exact decimal `5/100` in the rational model.) -/
def classifyTrend (dataPoints : List DataPoint) (firstStatus : Str) : Str :=
  match dataPoints.getLast?, dataPoints.dropLast.getLast? with
  | some recent, some previous =>
      let diff := qSub recent.value previous.value
      let threshold := qAbs (qMul previous.value (mkRat 5 100))
      if qLe (qAbs diff) threshold then strL "stable"
      else if recent.status = strL "normal" ∧ previous.status ≠ strL "normal" then
        strL "improving"
      else if recent.status ≠ strL "normal" ∧ previous.status = strL "normal" then
        strL "worsening"
      else if qLt 0 diff ∧ firstStatus = strL "high" then strL "worsening"
      else if qLt diff 0 ∧ firstStatus = strL "low" then strL "worsening"
      else strL "stable"
  | _, _ => strL "unknown"

/-- One `{date, value, status}` data point from a `{result, date}`
entry. -/
def mkDataPoint (e : Entry) : DataPoint :=
  { date := e.2, value := pointValue e.1.value, status := e.1.status }

/-- `bound || dflt` on an optional numeric bound: an absent bound and a
present bound of `0` are both falsy and yield the default (`NaN` cannot
occur here: normalized bounds are parsed numbers). -/
def jsOrQ (o : Option ℚ) (dflt : ℚ) : ℚ :=
  match o with
  | some q => if q = 0 then dflt else q
  | none => dflt

/-- The per-group body of the `labResultsByTest.forEach`: sort by date,
build data points, and emit the trend.  The source's
`.filter((dp) => !isNaN(dp.value))` is a no-op — the `|| 0` fallback in
the value coercion already replaced every `NaN` — so it is not repeated
here.  The display range is `rr.low || 0` / `rr.high || 100` (`jsOrQ`):
a present `low` of `0` still yields `0`, but a present `high` of `0` is
falsy and yields `100`. -/
def buildTrend (results : List Entry) : Option LabTrend :=
  if 1 ≤ results.length then
    match sortByDate results with
    | [] => none
    | first :: rest =>
      let firstResult := first.1
      let dataPoints := (first :: rest).map mkDataPoint
      if 0 < dataPoints.length then
        some
          { testName := firstResult.testName
            category := firstResult.category
            unit := firstResult.unit
            dataPoints := dataPoints
            currentStatus := classifyTrend dataPoints firstResult.status
            referenceRange := firstResult.referenceRange.map
              (fun rr => { low := jsOrQ rr.low 0, high := jsOrQ rr.high 100 }) }
      else none
  else none

/-- `getLabTrends`: group all documents' observations by lower-cased test
name, then build one trend per group. -/
def getLabTrends (documents : List MedDoc) : List LabTrend :=
  (groupEntries documents).filterMap (fun g => buildTrend g.2)

/-! ### Alert engine (`generateAlerts` from `medgemma.ts`) -/

/-- A derived health alert.  The fresh `uuid` and `createdAt` timestamp
are identity-only metadata and omitted from the pure model. -/
structure HealthAlert where
  type : Str
  title : Str
  message : Str
  relatedLabResult : LabResult
  dismissed : Bool
deriving DecidableEq

/-- `${result.value}` — the template-literal rendering of a lab value. -/
def showValue : LabValue → Str
  | .num q => ratToString q
  | .str s => s

/-- The alert pushed for a `critical` observation. -/
def criticalAlertFor (r : LabResult) : HealthAlert :=
  { type := strL "critical"
    title := strL "Critical: " ++ r.testName
    message := strL "Your " ++ r.testName ++ strL " level of " ++ showValue r.value
      ++ [' '] ++ r.unit ++ strL " requires immediate attention."
    relatedLabResult := r
    dismissed := false }

/-- The alert pushed for a `high` or `low` observation. -/
def warningAlertFor (r : LabResult) : HealthAlert :=
  { type := strL "warning"
    title := r.testName ++ [' ']
      ++ (if r.status = strL "high" then strL "Elevated" else strL "Low")
    message := strL "Your " ++ r.testName ++ strL " is " ++ showValue r.value
      ++ [' '] ++ r.unit ++ strL ", which is "
      ++ (if r.status = strL "high" then strL "above" else strL "below")
      ++ strL " normal."
    relatedLabResult := r
    dismissed := false }

/-- `generateAlerts`: one pass over the document's lab results, pushing a
critical alert per `critical` status and a warning alert per `high`/`low`
status. -/
def generateAlerts (doc : MedDoc) : List HealthAlert :=
  doc.labResults.foldl
    (fun alerts r =>
      if r.status = strL "critical" then alerts ++ [criticalAlertFor r]
      else if r.status = strL "high" ∨ r.status = strL "low" then
        alerts ++ [warningAlertFor r]
      else alerts) []

/-! ### Helper lemmas: the normalizer -/

theorem ok_bind {ε α β : Type} (a : α) (f : α → Except ε β) :
    (Except.ok a >>= f) = f a := rfl

theorem error_bind {ε α β : Type} (e : ε) (f : α → Except ε β) :
    ((Except.error e : Except ε α) >>= f) = Except.error e := rfl

theorem validateStatus_mem (o : Option Json) : validateStatus o ∈ validStatuses := by
  match o with
  | none => simp [validateStatus, validStatuses]
  | some (.str s) =>
      rw [validateStatus]
      split
      · assumption
      · simp [validStatuses]
  | some .null | some (.bool _) | some (.num _) | some (.arr _) | some (.obj _) =>
      simp [validateStatus, validStatuses]

theorem validateCategory_mem (o : Option Json) : validateCategory o ∈ validCategories := by
  match o with
  | none => simp [validateCategory, validCategories]
  | some (.str s) =>
      rw [validateCategory]
      split
      · assumption
      · simp [validCategories]
  | some .null | some (.bool _) | some (.num _) | some (.arr _) | some (.obj _) =>
      simp [validateCategory, validCategories]

theorem validateDocumentType_mem (o : Option Json) :
    validateDocumentType o ∈ validDocumentTypes := by
  match o with
  | none => simp [validateDocumentType, validDocumentTypes]
  | some (.str s) =>
      rw [validateDocumentType]
      split
      · assumption
      · simp [validDocumentTypes]
  | some .null | some (.bool _) | some (.num _) | some (.arr _) | some (.obj _) =>
      simp [validateDocumentType, validDocumentTypes]

/-- A successful `parseLab` run produces exactly the record built from the
element's fields. -/
theorem parseLab_ok_eq {lab : Json} {r : LabResult} (h : parseLab lab = .ok r) :
    r = { testName := jsOrStr (jsGetF lab (strL "testName")) (strL "Unknown Test")
          value := parseLabValue (jsGetF lab (strL "value"))
          unit := jsOrStr (jsGetF lab (strL "unit")) []
          referenceRange :=
            match jsGetF lab (strL "referenceRange") with
            | some rv =>
                if jsTruthy rv then
                  some
                    { low := parseBound (jsGetF rv (strL "low"))
                      high := parseBound (jsGetF rv (strL "high"))
                      text := jsOrStr (jsGetF rv (strL "text")) [] }
                else none
            | none => none
          status := validateStatus (jsGetF lab (strL "status"))
          category := validateCategory (jsGetF lab (strL "category")) } := by
  cases lab with
  | null => exact Except.noConfusion h
  | bool b => exact (Except.ok.inj h).symm
  | num q => exact (Except.ok.inj h).symm
  | str s => exact (Except.ok.inj h).symm
  | arr l => exact (Except.ok.inj h).symm
  | obj fs => exact (Except.ok.inj h).symm

/-- `parseLab` can only throw a `TypeError` (on a `null` element). -/
theorem parseLab_error {lab : Json} {e : NormError} (h : parseLab lab = .error e) :
    e = .typeError := by
  cases lab with
  | null => exact (Except.error.inj h).symm
  | bool b => exact Except.noConfusion h
  | num q => exact Except.noConfusion h
  | str s => exact Except.noConfusion h
  | arr l => exact Except.noConfusion h
  | obj fs => exact Except.noConfusion h

/-- Every output of a successful `mapM parseLab` comes from one input
element. -/
theorem mapM_parseLab_mem {l : List Json} {res : List LabResult}
    (h : l.mapM parseLab = .ok res) :
    ∀ r ∈ res, ∃ lab ∈ l, parseLab lab = .ok r := by
  induction l generalizing res with
  | nil =>
      have h' : Except.ok ([] : List LabResult) = Except.ok res := h
      cases Except.ok.inj h'
      intro r hr
      cases hr
  | cons x xs ih =>
      rw [List.mapM_cons] at h
      cases hx : parseLab x with
      | error e => rw [hx] at h; exact Except.noConfusion h
      | ok rx =>
          rw [hx] at h
          cases hxs : xs.mapM parseLab with
          | error e =>
              rw [hxs] at h
              exact Except.noConfusion h
          | ok rxs =>
              rw [hxs] at h
              have h' : Except.ok (rx :: rxs) = Except.ok res := h
              cases Except.ok.inj h'
              intro r hr
              rcases hr with _ | hr'
              · exact ⟨x, List.mem_cons_self x xs, hx⟩
              · rcases ih hxs r (by assumption) with ⟨lab, hl, hp⟩
                exact ⟨lab, List.mem_cons_of_mem x hl, hp⟩

/-- A failing `mapM parseLab` fails with one element's error. -/
theorem mapM_parseLab_error {l : List Json} {e : NormError}
    (h : l.mapM parseLab = .error e) : ∃ lab ∈ l, parseLab lab = .error e := by
  induction l with
  | nil => exact Except.noConfusion h
  | cons x xs ih =>
      rw [List.mapM_cons] at h
      cases hx : parseLab x with
      | error e' =>
          rw [hx] at h
          have h' : Except.error (α := List LabResult) e' = Except.error e := h
          cases Except.error.inj h'
          exact ⟨x, List.mem_cons_self x xs, hx⟩
      | ok rx =>
          rw [hx] at h
          cases hxs : xs.mapM parseLab with
          | error e' =>
              rw [hxs] at h
              have h' : Except.error (α := List LabResult) e' = Except.error e := h
              cases Except.error.inj h'
              rcases ih hxs with ⟨lab, hl, hp⟩
              exact ⟨lab, List.mem_cons_of_mem x hl, hp⟩
          | ok rxs =>
              rw [hxs] at h
              exact Except.noConfusion h

/-- `jsGet` can only throw a `TypeError`. -/
theorem jsGet_error {v : Json} {k : Str} {e : NormError}
    (h : jsGet v k = .error e) : e = .typeError := by
  cases v with
  | null => exact (Except.error.inj h).symm
  | bool b => exact Except.noConfusion h
  | num q => exact Except.noConfusion h
  | str s => exact Except.noConfusion h
  | arr l => exact Except.noConfusion h
  | obj fs => exact Except.noConfusion h

/-- A successful `labResultsOf` is a successful `mapM parseLab` over some
element list. -/
theorem labResultsOf_ok {parsed : Json} {labs : List LabResult}
    (h : labResultsOf parsed = .ok labs) :
    ∃ labJsons : List Json, labJsons.mapM parseLab = .ok labs := by
  cases hg : jsGet parsed (strL "labResults") with
  | error e =>
      unfold labResultsOf at h
      rw [hg, error_bind] at h
      exact Except.noConfusion h
  | ok lrF =>
      unfold labResultsOf at h
      rw [hg, ok_bind] at h
      split at h
      · split at h
        · split at h
          · exact ⟨_, h⟩
          · rw [error_bind] at h; exact Except.noConfusion h
        · exact ⟨[], h⟩
      · exact ⟨[], h⟩

/-- `labResultsOf` can only throw a `TypeError`. -/
theorem labResultsOf_error {parsed : Json} {e : NormError}
    (h : labResultsOf parsed = .error e) : e = .typeError := by
  cases hg : jsGet parsed (strL "labResults") with
  | error e' =>
      unfold labResultsOf at h
      rw [hg, error_bind] at h
      cases Except.error.inj h
      exact (jsGet_error hg)
  | ok lrF =>
      unfold labResultsOf at h
      rw [hg, ok_bind] at h
      split at h
      · split at h
        · split at h
          · obtain ⟨lab, _, hp⟩ := mapM_parseLab_error h
            exact parseLab_error hp
          · rw [error_bind] at h; exact (Except.error.inj h).symm
        · obtain ⟨lab, _, hp⟩ := mapM_parseLab_error h
          exact parseLab_error hp
      · obtain ⟨lab, _, hp⟩ := mapM_parseLab_error h
        exact parseLab_error hp

/-- A successful `parseExtractionData` run: its lab list is a successful
`labResultsOf`, and its document type comes from `validateDocumentType`. -/
theorem parseExtractionData_ok_parts {today : Str} {parsed : Json} {doc : ParsedDoc}
    (h : parseExtractionData today parsed = .ok doc) :
    (∃ labs, labResultsOf parsed = .ok labs ∧
        doc.extractedData.structuredData.labResults = labs) ∧
    doc.documentType = validateDocumentType (jsGetF parsed (strL "documentType")) := by
  cases hl : labResultsOf parsed with
  | error e =>
      unfold parseExtractionData at h
      rw [hl, error_bind] at h
      exact Except.noConfusion h
  | ok labs =>
      unfold parseExtractionData at h
      rw [hl, ok_bind] at h
      cases parsed with
      | null => exact Except.noConfusion hl
      | bool b =>
          have h' := Except.ok.inj h
          exact ⟨⟨labs, rfl, by rw [← h']⟩, by rw [← h']⟩
      | num q =>
          have h' := Except.ok.inj h
          exact ⟨⟨labs, rfl, by rw [← h']⟩, by rw [← h']⟩
      | str s =>
          have h' := Except.ok.inj h
          exact ⟨⟨labs, rfl, by rw [← h']⟩, by rw [← h']⟩
      | arr l =>
          have h' := Except.ok.inj h
          exact ⟨⟨labs, rfl, by rw [← h']⟩, by rw [← h']⟩
      | obj fs =>
          have h' := Except.ok.inj h
          exact ⟨⟨labs, rfl, by rw [← h']⟩, by rw [← h']⟩

/-- `parseExtractionData` can only throw a `TypeError`. -/
theorem parseExtractionData_error {today : Str} {parsed : Json} {e : NormError}
    (h : parseExtractionData today parsed = .error e) : e = .typeError := by
  cases hl : labResultsOf parsed with
  | error e' =>
      unfold parseExtractionData at h
      rw [hl, error_bind] at h
      cases Except.error.inj h
      exact labResultsOf_error hl
  | ok labs =>
      unfold parseExtractionData at h
      rw [hl, ok_bind] at h
      cases parsed with
      | null => exact Except.noConfusion hl
      | bool b => exact Except.noConfusion h
      | num q => exact Except.noConfusion h
      | str s => exact Except.noConfusion h
      | arr l => exact Except.noConfusion h
      | obj fs => exact Except.noConfusion h

/-- A successful `parseExtractionResponse` delegates to a successful
`parseExtractionData` on the recovered JSON value. -/
theorem parseExtractionResponse_ok {today s : Str} {doc : ParsedDoc}
    (h : parseExtractionResponse today s = .ok doc) :
    ∃ v, recoverJson (strip s) = .ok v ∧ parseExtractionData today v = .ok doc := by
  cases hr : recoverJson (strip s) with
  | error e =>
      unfold parseExtractionResponse at h
      rw [hr] at h
      exact Except.noConfusion h
  | ok v =>
      unfold parseExtractionResponse at h
      rw [hr] at h
      exact ⟨v, rfl, h⟩

/-! ### Spec-side definition for the alert claim -/

/-- The per-observation alert production as the claim states it: exactly
one `critical` alert per `critical` observation, exactly one `warning`
alert per `high`/`low` observation (title and message branching on the
direction), and no alert otherwise (`normal`, `unknown`). -/
def specAlertOf (r : LabResult) : Option HealthAlert :=
  if r.status = strL "critical" then some (criticalAlertFor r)
  else if r.status = strL "high" ∨ r.status = strL "low" then some (warningAlertFor r)
  else none

theorem foldl_alerts (l : List LabResult) (acc : List HealthAlert) :
    l.foldl
      (fun alerts r =>
        if r.status = strL "critical" then alerts ++ [criticalAlertFor r]
        else if r.status = strL "high" ∨ r.status = strL "low" then
          alerts ++ [warningAlertFor r]
        else alerts) acc
      = acc ++ l.filterMap specAlertOf := by
  induction l generalizing acc with
  | nil => simp
  | cons x xs ih =>
      rw [List.foldl_cons, ih, List.filterMap_cons]
      simp only [specAlertOf]
      split_ifs <;> simp

/-! ### Claim theorems: the normalizer -/

/-- C4: for every extraction input that normalizes successfully, every
output lab observation's `status` is in the fixed five-member set and its
`category` in the fixed eleven-member set, and the document type is in its
five-member set — an unrecognized source string collapses to the default
member, never passing through.  Stated both for `parseExtractionData` (the
`medgemma.ts` entry) and for the string-level `parseExtractionResponse`. -/
theorem c4_enum_closure :
    (∀ (today : Str) (parsed : Json) (doc : ParsedDoc),
        parseExtractionData today parsed = .ok doc →
        (∀ r ∈ doc.extractedData.structuredData.labResults,
            r.status ∈ validStatuses ∧ r.category ∈ validCategories) ∧
        doc.documentType ∈ validDocumentTypes) ∧
    (∀ (today s : Str) (doc : ParsedDoc),
        parseExtractionResponse today s = .ok doc →
        (∀ r ∈ doc.extractedData.structuredData.labResults,
            r.status ∈ validStatuses ∧ r.category ∈ validCategories) ∧
        doc.documentType ∈ validDocumentTypes) := by
  have main : ∀ (today : Str) (parsed : Json) (doc : ParsedDoc),
      parseExtractionData today parsed = .ok doc →
      (∀ r ∈ doc.extractedData.structuredData.labResults,
          r.status ∈ validStatuses ∧ r.category ∈ validCategories) ∧
      doc.documentType ∈ validDocumentTypes := by
    intro today parsed doc h
    obtain ⟨⟨labs, hl, hlabs⟩, hdt⟩ := parseExtractionData_ok_parts h
    constructor
    · intro r hr
      rw [hlabs] at hr
      obtain ⟨labJsons, hm⟩ := labResultsOf_ok hl
      obtain ⟨lab, _, hp⟩ := mapM_parseLab_mem hm r hr
      have hr' := parseLab_ok_eq hp
      subst hr'
      exact ⟨validateStatus_mem _, validateCategory_mem _⟩
    · rw [hdt]
      exact validateDocumentType_mem _
  refine ⟨main, ?_⟩
  intro today s doc h
  obtain ⟨v, _, hd⟩ := parseExtractionResponse_ok h
  exact main today v doc hd

/-- A concrete extraction input with an unrecognized status, category and
document type, for the C4 witness. -/
def inputC4 : Json :=
  .obj [(strL "documentType", .str (strL "memo")),
        (strL "labResults", .arr [.obj [(strL "testName", .str (strL "LDL")),
                                        (strL "value", .num 140),
                                        (strL "status", .str (strL "banana")),
                                        (strL "category", .str (strL "fruit"))]])]

/-- The normalized output for `inputC4`. -/
def docC4 : ParsedDoc :=
  (parseExtractionData (strL "2026-01-01") inputC4).toOption.get (by rfl)

/-- C4 witness: the theorem applied at `inputC4`. -/
theorem c4_enum_closure_witness :
    (∀ r ∈ docC4.extractedData.structuredData.labResults,
        r.status ∈ validStatuses ∧ r.category ∈ validCategories) ∧
    docC4.documentType ∈ validDocumentTypes :=
  c4_enum_closure.1 (strL "2026-01-01") inputC4 docC4 rfl

/-- C5: the value coercion keeps an already-numeric value unchanged;
a string value is `parseFloat`ed (leading-numeric-prefix parse), keeping
the parsed number on success and the original string verbatim on failure;
and every normalized observation's `value` arises exactly this way from
the input element's `value` field.  (The coercion is a total function, so
it cannot throw.) -/
theorem c5_value_coercion :
    (∀ q : ℚ, parseLabValue (some (.num q)) = .num q) ∧
    (∀ s : Str, parseLabValue (some (.str s)) =
      (match jsParseFloat s with
       | some q => LabValue.num q
       | none => LabValue.str s)) ∧
    (∀ (lab : Json) (r : LabResult), parseLab lab = .ok r →
        r.value = parseLabValue (jsGetF lab (strL "value"))) := by
  refine ⟨fun q => rfl, fun s => rfl, ?_⟩
  intro lab r h
  have hr := parseLab_ok_eq h
  subst hr
  rfl

/-- A concrete lab element whose `value` is the string `"142 mg"`. -/
def labC5 : Json := .obj [(strL "value", .str (strL "142 mg"))]

/-- The normalized observation for `labC5`. -/
def labR5 : LabResult := (parseLab labC5).toOption.get (by rfl)

/-- C5 witness: `"142 mg"` has the leading numeric prefix `142`, so the
coercion yields the number `142`; an already-numeric `142` is unchanged;
and the observation built from `labC5` carries exactly the coerced
value. -/
theorem c5_value_coercion_witness :
    parseLabValue (some (.str (strL "142 mg"))) = .num 142 ∧
    parseLabValue (some (.num 142)) = .num 142 ∧
    labR5.value = parseLabValue (jsGetF labC5 (strL "value")) :=
  ⟨by rw [c5_value_coercion.2.1 (strL "142 mg")]; rfl, c5_value_coercion.1 142,
    c5_value_coercion.2.2 labC5 labR5 rfl⟩

/-- C6 (amended): a reference-range bound is kept exactly when its numeric
parse succeeds with a nonzero value; it is omitted when the parse fails,
the bound is absent, or the bound parses to zero (zero is falsy, so
`parseFloat(x) || undefined` also drops a parsed `0`); and every
normalized observation's `referenceRange` arises exactly this way. -/
theorem c6_reference_bounds :
    (∀ (o : Option Json) (q : ℚ), jsParseFloatVal o = some q → q ≠ 0 →
        parseBound o = some q) ∧
    (∀ o : Option Json, jsParseFloatVal o = none → parseBound o = none) ∧
    (∀ o : Option Json, jsParseFloatVal o = some 0 → parseBound o = none) ∧
    (∀ (lab : Json) (r : LabResult), parseLab lab = .ok r →
        r.referenceRange =
          (match jsGetF lab (strL "referenceRange") with
           | some rv =>
               if jsTruthy rv then
                 some
                   { low := parseBound (jsGetF rv (strL "low"))
                     high := parseBound (jsGetF rv (strL "high"))
                     text := jsOrStr (jsGetF rv (strL "text")) [] }
               else none
           | none => none)) := by
  refine ⟨?_, ?_, ?_, ?_⟩
  · intro o q h hq
    unfold parseBound
    rw [h]
    simp [hq]
  · intro o h
    unfold parseBound
    rw [h]
  · intro o h
    unfold parseBound
    rw [h]
    simp
  · intro lab r h
    have hr := parseLab_ok_eq h
    subst hr
    rfl

/-- The concrete lab element for the C6 counterexample: `low` is the
string `"0"`, whose numeric parse succeeds (with value `0`). -/
def labC6 : Json :=
  .obj [(strL "referenceRange",
         .obj [(strL "low", .str (strL "0")), (strL "high", .num 10)])]

/-- The normalized observation for `labC6`. -/
def labR6 : LabResult := (parseLab labC6).toOption.get (by rfl)

/-- C6 counterexample: the claim says a bound is kept *exactly when* its
numeric parse succeeds.  For the bound `"0"` the parse succeeds (first
conjunct), yet the normalizer omits the field (second/third conjuncts):
`parseFloat(x) || undefined` treats the parsed `0` as falsy. -/
theorem c6_reference_bounds_counterexample :
    jsParseFloatVal (some (.str (strL "0"))) = some 0 ∧
    parseLab labC6 = Except.ok labR6 ∧
    labR6.referenceRange = some { low := none, high := some 10, text := [] } :=
  ⟨rfl, rfl, rfl⟩

/-- C6 witness: the amended theorem applied at a bound `"7.5"` (parse
succeeds, nonzero, kept) and at the bound `"0"` (parse succeeds with zero,
omitted), and at `labC6`. -/
theorem c6_reference_bounds_witness :
    parseBound (some (.str (strL "7.5"))) = some (mkRat 15 2) ∧
    parseBound (some (.str (strL "0"))) = none ∧
    labR6.referenceRange =
      (match jsGetF labC6 (strL "referenceRange") with
       | some rv =>
           if jsTruthy rv then
             some
               { low := parseBound (jsGetF rv (strL "low"))
                 high := parseBound (jsGetF rv (strL "high"))
                 text := jsOrStr (jsGetF rv (strL "text")) [] }
           else none
       | none => none) :=
  ⟨c6_reference_bounds.1 (some (.str (strL "7.5"))) (mkRat 15 2) rfl (by decide),
   c6_reference_bounds.2.2.1 (some (.str (strL "0"))) rfl,
   c6_reference_bounds.2.2.2 labC6 labR6 rfl⟩

/-- C10: the value coercion is total over arbitrary JSON values — an
input lab value that is neither a number nor a string is coerced to its
`String(value)` rendering (e.g. `null` becomes the string `"null"`)
rather than raising an error. -/
theorem c10_value_totality (v : Json) (h1 : ∀ q, v ≠ .num q)
    (h2 : ∀ s, v ≠ .str s) : parseLabValue (some v) = .str (jsToString v) := by
  cases v with
  | null => rfl
  | bool b => rfl
  | num q => exact absurd rfl (h1 q)
  | str s => exact absurd rfl (h2 s)
  | arr l => rfl
  | obj fs => rfl

/-- C10 witness: the theorem applied at `null`, whose rendering is the
string `"null"`. -/
theorem c10_value_totality_witness :
    parseLabValue (some Json.null) = .str (strL "null") := by
  have h := c10_value_totality Json.null (fun q hq => Json.noConfusion hq)
    (fun s hs => Json.noConfusion hs)
  rw [h]
  simp [jsToString]

/-! ### Claim theorem: alerts -/

/-- C9: `generateAlerts` emits, in observation order, exactly one
`critical` alert per `critical` observation (title `Critical: <name>`,
message interpolating name, value and unit), exactly one `warning` alert
per `high`/`low` observation (title/message branching on the direction),
and nothing for any other status (`normal`, `unknown`) — regardless of
whether the observation's value is numeric. -/
theorem c9_alert_generation :
    (∀ doc : MedDoc, generateAlerts doc = doc.labResults.filterMap specAlertOf) ∧
    (∀ r : LabResult, r.status = strL "critical" →
        specAlertOf r = some (criticalAlertFor r)) ∧
    (∀ r : LabResult, r.status = strL "high" ∨ r.status = strL "low" →
        specAlertOf r = some (warningAlertFor r)) ∧
    (∀ r : LabResult, r.status = strL "normal" ∨ r.status = strL "unknown" →
        specAlertOf r = none) := by
  refine ⟨?_, ?_, ?_, ?_⟩
  · intro doc
    rw [generateAlerts, foldl_alerts]
    rfl
  · intro r h
    unfold specAlertOf
    rw [if_pos h]
  · intro r h
    have hc : r.status ≠ strL "critical" := by
      rcases h with h | h <;> rw [h] <;> decide
    unfold specAlertOf
    rw [if_neg hc, if_pos h]
  · intro r h
    have hc : r.status ≠ strL "critical" := by
      rcases h with h | h <;> rw [h] <;> decide
    have hw : ¬(r.status = strL "high" ∨ r.status = strL "low") := by
      rcases h with h | h <;> rw [h] <;> decide
    unfold specAlertOf
    rw [if_neg hc, if_neg hw]

/-- Concrete observations for the C9 witness. -/
def rC9crit : LabResult :=
  { testName := strL "Potassium", value := .num (mkRat 71 10), unit := strL "mmol/L",
    referenceRange := none, status := strL "critical", category := strL "metabolic" }

/-- A `high`-status observation with a non-numeric value. -/
def rC9high : LabResult :=
  { testName := strL "Protein", value := .str (strL "trace"), unit := strL "",
    referenceRange := none, status := strL "high", category := strL "kidney" }

/-- A `normal`-status observation. -/
def rC9norm : LabResult :=
  { testName := strL "Sodium", value := .num 140, unit := strL "mmol/L",
    referenceRange := none, status := strL "normal", category := strL "metabolic" }

/-- C9 witness: the theorem applied at a three-observation document —
one critical alert, one warning alert (for the non-numeric `high`
observation), nothing for the normal one. -/
theorem c9_alert_generation_witness :
    generateAlerts { date := 0, labResults := [rC9crit, rC9high, rC9norm] } =
      [criticalAlertFor rC9crit, warningAlertFor rC9high] := by
  rw [(c9_alert_generation).1 { date := 0, labResults := [rC9crit, rC9high, rC9norm] }]
  rfl

/-! ### Helper lemmas: sorting -/

/-- The sort order on grouping entries: owning-document date. -/
def dateLe (a b : Entry) : Prop := a.2 ≤ b.2

theorem insertByDate_perm (e : Entry) (l : List Entry) :
    List.Perm (insertByDate e l) (e :: l) := by
  induction l with
  | nil => exact List.Perm.refl _
  | cons x xs ih =>
      rw [insertByDate]
      split
      · exact (ih.cons x).trans (List.Perm.swap e x xs)
      · exact List.Perm.refl _

theorem foldl_insertByDate_perm (l : List Entry) (acc : List Entry) :
    List.Perm (l.foldl (fun a e => insertByDate e a) acc) (acc ++ l) := by
  induction l generalizing acc with
  | nil => simp
  | cons x xs ih =>
      rw [List.foldl_cons]
      refine (ih (insertByDate x acc)).trans ?_
      refine ((insertByDate_perm x acc).append_right xs).trans ?_
      rw [List.cons_append]
      exact List.perm_middle.symm

theorem sortByDate_perm (l : List Entry) : List.Perm (sortByDate l) l := by
  have h := foldl_insertByDate_perm l []
  simpa [sortByDate] using h

theorem insertByDate_pairwise {e : Entry} {l : List Entry}
    (h : l.Pairwise dateLe) : (insertByDate e l).Pairwise dateLe := by
  induction l with
  | nil => simp [insertByDate, dateLe]
  | cons x xs ih =>
      rw [List.pairwise_cons] at h
      obtain ⟨hx, hxs⟩ := h
      rw [insertByDate]
      split
      · rw [List.pairwise_cons]
        refine ⟨?_, ih hxs⟩
        intro y hy
        rcases List.mem_cons.mp ((insertByDate_perm e xs).mem_iff.mp hy) with rfl | hy2
        · assumption
        · exact hx y hy2
      · rw [List.pairwise_cons]
        refine ⟨?_, List.pairwise_cons.mpr ⟨hx, hxs⟩⟩
        intro y hy
        have he : dateLe e x := le_of_lt (lt_of_not_ge (by assumption))
        rcases List.mem_cons.mp hy with rfl | hy2
        · exact he
        · exact le_trans he (hx y hy2)

theorem sortByDate_pairwise (l : List Entry) : (sortByDate l).Pairwise dateLe := by
  have aux : ∀ (l acc : List Entry), acc.Pairwise dateLe →
      (l.foldl (fun a e => insertByDate e a) acc).Pairwise dateLe := by
    intro l
    induction l with
    | nil => intro acc h; exact h
    | cons x xs ih =>
        intro acc h
        rw [List.foldl_cons]
        exact ih _ (insertByDate_pairwise h)
  exact aux l [] List.Pairwise.nil

/-- The head of the sorted group is a member with minimal date. -/
theorem sortByDate_head_min {l : List Entry} {first : Entry} {rest : List Entry}
    (h : sortByDate l = first :: rest) :
    first ∈ l ∧ ∀ y ∈ l, first.2 ≤ y.2 := by
  have hp := sortByDate_perm l
  rw [h] at hp
  constructor
  · exact hp.subset (List.mem_cons_self _ _)
  · intro y hy
    have hy2 : y ∈ first :: rest := hp.symm.subset hy
    rcases List.mem_cons.mp hy2 with rfl | hy3
    · exact le_refl _
    · have hs := sortByDate_pairwise l
      rw [h, List.pairwise_cons] at hs
      exact hs.1 y hy3

/-! ### Helper lemmas: grouping -/

/-- The entries of `es` carrying the key `k`, in order. -/
def selEntries (es : List (Str × Entry)) (k : Str) : List Entry :=
  es.filterMap (fun ke => if ke.1 = k then some ke.2 else none)

/-- Group lookup in the association-list map. -/
def findGroup (m : List (Str × List Entry)) (k : Str) : Option (List Entry) :=
  (m.find? (fun p => p.1 = k)).map Prod.snd

theorem selEntries_mem {es : List (Str × Entry)} {k : Str} {e : Entry} :
    e ∈ selEntries es k ↔ (k, e) ∈ es := by
  rw [selEntries, List.mem_filterMap]
  constructor
  · rintro ⟨⟨k2, e2⟩, hke, hif⟩
    by_cases hk : k2 = k
    · rw [if_pos hk] at hif
      cases Option.some.inj hif
      cases hk
      exact hke
    · rw [if_neg hk] at hif
      exact Option.noConfusion hif
  · intro hke
    exact ⟨(k, e), hke, by rw [if_pos rfl]⟩

theorem findGroup_cons (k0 : Str) (es0 : List Entry)
    (rest : List (Str × List Entry)) (k2 : Str) :
    findGroup ((k0, es0) :: rest) k2 =
      if k0 = k2 then some es0 else findGroup rest k2 := by
  by_cases h : k0 = k2
  · rw [if_pos h]
    unfold findGroup
    rw [List.find?_cons_of_pos _ (by simpa using h)]
    rfl
  · rw [if_neg h]
    unfold findGroup
    rw [List.find?_cons_of_neg _ (by simpa using h)]

theorem insertEntry_keys (m : List (Str × List Entry)) (k : Str) (e : Entry) :
    (insertEntry m k e).map Prod.fst =
      if k ∈ m.map Prod.fst then m.map Prod.fst else m.map Prod.fst ++ [k] := by
  induction m with
  | nil => simp [insertEntry]
  | cons p rest ih =>
      obtain ⟨k2, es⟩ := p
      rw [insertEntry]
      by_cases hk : k2 = k
      · rw [if_pos hk]
        subst hk
        simp
      · rw [if_neg hk]
        by_cases hmem : k ∈ rest.map Prod.fst
        · simp only [List.map_cons, ih, if_pos hmem]
          rw [if_pos]
          exact List.mem_cons_of_mem _ hmem
        · simp only [List.map_cons, ih, if_neg hmem]
          rw [if_neg]
          · simp
          · intro hc
            rcases List.mem_cons.mp hc with hc2 | hc2
            · exact hk hc2.symm
            · exact hmem hc2

theorem insertEntry_nodup_keys {m : List (Str × List Entry)} (k : Str) (e : Entry)
    (h : (m.map Prod.fst).Nodup) : ((insertEntry m k e).map Prod.fst).Nodup := by
  rw [insertEntry_keys]
  split
  · exact h
  · rw [List.nodup_append]
    refine ⟨h, List.nodup_singleton k, ?_⟩
    simpa using (by assumption : ¬ k ∈ m.map Prod.fst)

theorem insertEntry_mem {m : List (Str × List Entry)} {k : Str} {e : Entry}
    {p : Str × List Entry} (h : p ∈ insertEntry m k e) :
    p ∈ m ∨ ∃ es0, p = (k, es0 ++ [e]) := by
  induction m with
  | nil =>
      rw [insertEntry] at h
      rcases List.mem_singleton.mp h with rfl
      exact Or.inr ⟨[], by simp⟩
  | cons q rest ih =>
      obtain ⟨k2, es⟩ := q
      rw [insertEntry] at h
      split at h
      · rcases List.mem_cons.mp h with rfl | h2
        · rename_i hk2
          subst hk2
          exact Or.inr ⟨es, rfl⟩
        · exact Or.inl (List.mem_cons_of_mem _ h2)
      · rcases List.mem_cons.mp h with rfl | h2
        · exact Or.inl (List.mem_cons_self _ _)
        · rcases ih h2 with h3 | h3
          · exact Or.inl (List.mem_cons_of_mem _ h3)
          · exact Or.inr h3

theorem findGroup_insert (m : List (Str × List Entry)) (k : Str) (e : Entry)
    (k2 : Str) :
    findGroup (insertEntry m k e) k2 =
      if k2 = k then some ((findGroup m k).getD [] ++ [e]) else findGroup m k2 := by
  induction m with
  | nil =>
      by_cases hk : k2 = k
      · subst hk
        simp [insertEntry, findGroup_cons, findGroup]
      · rw [if_neg hk, insertEntry, findGroup_cons,
          if_neg (fun hc => hk hc.symm)]
  | cons q rest ih =>
      obtain ⟨k0, es0⟩ := q
      rw [insertEntry]
      by_cases h0 : k0 = k
      · rw [if_pos h0]
        subst h0
        by_cases hk : k0 = k2
        · subst hk
          rw [findGroup_cons, if_pos rfl, if_pos rfl, findGroup_cons, if_pos rfl]
          rfl
        · rw [findGroup_cons, if_neg hk, if_neg (fun hc => hk hc.symm),
            findGroup_cons, if_neg hk]
      · rw [if_neg h0, findGroup_cons]
        by_cases hk : k0 = k2
        · subst hk
          rw [if_pos rfl, if_neg h0, findGroup_cons, if_pos rfl]
        · rw [if_neg hk, ih]
          by_cases hkk : k2 = k
          · rw [if_pos hkk, if_pos hkk, findGroup_cons,
              if_neg (fun hc => hk (hc.trans hkk.symm))]
          · rw [if_neg hkk, if_neg hkk, findGroup_cons, if_neg hk]

theorem findGroup_of_mem {m : List (Str × List Entry)}
    (h : (m.map Prod.fst).Nodup) {k : Str} {es : List Entry}
    (hm : (k, es) ∈ m) : findGroup m k = some es := by
  induction m with
  | nil => cases hm
  | cons q rest ih =>
      obtain ⟨k0, es0⟩ := q
      rw [List.map_cons, List.nodup_cons] at h
      rcases List.mem_cons.mp hm with heq | hm2
      · cases heq
        rw [findGroup_cons, if_pos rfl]
      · have hne : k0 ≠ k := by
          intro hc
          subst hc
          exact h.1 (List.mem_map.mpr ⟨(k0, es), hm2, rfl⟩)
        rw [findGroup_cons, if_neg hne]
        exact ih h.2 hm2

/-- The fold step of `groupEntries`. -/
def groupStep (m : List (Str × List Entry)) (ke : Str × Entry) :
    List (Str × List Entry) := insertEntry m ke.1 ke.2

theorem foldl_findGroup (es : List (Str × Entry)) :
    ∀ (m : List (Str × List Entry)) (k : Str),
      (findGroup (es.foldl groupStep m) k).getD [] =
        (findGroup m k).getD [] ++ selEntries es k := by
  induction es with
  | nil => intro m k; simp [selEntries]
  | cons ke rest ih =>
      intro m k
      obtain ⟨k0, e0⟩ := ke
      rw [List.foldl_cons]
      rw [ih (groupStep m (k0, e0)) k]
      rw [show groupStep m (k0, e0) = insertEntry m k0 e0 from rfl]
      rw [findGroup_insert]
      by_cases hk : k = k0
      · subst hk
        rw [if_pos rfl]
        rw [show selEntries ((k, e0) :: rest) k = e0 :: selEntries rest k by
          simp [selEntries, List.filterMap_cons]]
        simp
      · rw [if_neg hk]
        rw [show selEntries ((k0, e0) :: rest) k = selEntries rest k by
          simp [selEntries, List.filterMap_cons, Ne.symm hk]]

theorem foldl_keys_subset (es : List (Str × Entry)) :
    ∀ (m : List (Str × List Entry)) (k : Str),
      k ∈ m.map Prod.fst → k ∈ (es.foldl groupStep m).map Prod.fst := by
  induction es with
  | nil => intro m k h; exact h
  | cons ke rest ih =>
      intro m k h
      rw [List.foldl_cons]
      refine ih _ k ?_
      rw [show groupStep m ke = insertEntry m ke.1 ke.2 from rfl, insertEntry_keys]
      split
      · exact h
      · exact List.mem_append_left _ h

theorem foldl_keys_complete (es : List (Str × Entry)) :
    ∀ (m : List (Str × List Entry)), ∀ ke ∈ es,
      ke.1 ∈ (es.foldl groupStep m).map Prod.fst := by
  induction es with
  | nil => intro m ke h; cases h
  | cons ke0 rest ih =>
      intro m ke h
      rcases List.mem_cons.mp h with rfl | h2
      · rw [List.foldl_cons]
        refine foldl_keys_subset rest _ ke.1 ?_
        rw [show groupStep m ke = insertEntry m ke.1 ke.2 from rfl, insertEntry_keys]
        split
        · assumption
        · exact List.mem_append_right _ (List.mem_singleton.mpr rfl)
      · rw [List.foldl_cons]
        exact ih _ ke h2

theorem foldl_nodup_keys (es : List (Str × Entry)) :
    ∀ (m : List (Str × List Entry)), (m.map Prod.fst).Nodup →
      ((es.foldl groupStep m).map Prod.fst).Nodup := by
  induction es with
  | nil => intro m h; exact h
  | cons ke rest ih =>
      intro m h
      rw [List.foldl_cons]
      exact ih _ (insertEntry_nodup_keys ke.1 ke.2 h)

theorem foldl_groups_nonempty (es : List (Str × Entry)) :
    ∀ (m : List (Str × List Entry)), (∀ p ∈ m, p.2 ≠ []) →
      ∀ p ∈ es.foldl groupStep m, p.2 ≠ [] := by
  induction es with
  | nil => intro m h; exact h
  | cons ke rest ih =>
      intro m h
      rw [List.foldl_cons]
      refine ih _ ?_
      intro p hp
      rcases insertEntry_mem hp with hp2 | ⟨es0, rfl⟩
      · exact h p hp2
      · simp

/-- Every group of `groupEntries` is nonempty, consists exactly of the
collected entries with its key (in encounter order), and keys are
distinct. -/
theorem groupEntries_spec (documents : List MedDoc) :
    (((groupEntries documents).map Prod.fst).Nodup) ∧
    (∀ p ∈ groupEntries documents,
        p.2 = selEntries (collectEntries documents) p.1 ∧ p.2 ≠ []) ∧
    (∀ ke ∈ collectEntries documents,
        ke.1 ∈ (groupEntries documents).map Prod.fst) := by
  have hfold : groupEntries documents = (collectEntries documents).foldl groupStep [] := rfl
  have hnodup : ((groupEntries documents).map Prod.fst).Nodup := by
    rw [hfold]
    exact foldl_nodup_keys _ [] (by simp)
  refine ⟨hnodup, ?_, ?_⟩
  · intro p hp
    have hne : p.2 ≠ [] := by
      rw [hfold] at hp
      exact foldl_groups_nonempty _ [] (by simp) p hp
    refine ⟨?_, hne⟩
    obtain ⟨k, es⟩ := p
    have hfg : findGroup (groupEntries documents) k = some es :=
      findGroup_of_mem hnodup hp
    have := foldl_findGroup (collectEntries documents) [] k
    rw [← hfold, hfg] at this
    simpa [findGroup] using this
  · intro ke hke
    rw [hfold]
    exact foldl_keys_complete _ [] ke hke

/-- Membership in `collectEntries`. -/
theorem collectEntries_mem {documents : List MedDoc} {k : Str} {e : Entry} :
    (k, e) ∈ collectEntries documents ↔
      ∃ doc ∈ documents, e.1 ∈ doc.labResults ∧ e.2 = doc.date ∧
        k = lowerStr e.1.testName := by
  rw [collectEntries, List.mem_flatten]
  constructor
  · rintro ⟨l, hl, hkel⟩
    rw [List.mem_map] at hl
    obtain ⟨doc, hdoc, rfl⟩ := hl
    rw [List.mem_map] at hkel
    obtain ⟨r, hr, heq⟩ := hkel
    have hk : lowerStr r.testName = k := congrArg Prod.fst heq
    have he : (r, doc.date) = e := congrArg Prod.snd heq
    subst he
    exact ⟨doc, hdoc, hr, rfl, hk.symm⟩
  · rintro ⟨doc, hdoc, hr, hd, hk⟩
    refine ⟨doc.labResults.map (fun r => (lowerStr r.testName, (r, doc.date))),
      List.mem_map.mpr ⟨doc, hdoc, rfl⟩, ?_⟩
    rw [List.mem_map]
    refine ⟨e.1, hr, ?_⟩
    obtain ⟨r, d⟩ := e
    simp only at hd hk ⊢
    rw [hd, hk]

/-- The trend record `buildTrend` emits for a nonempty group, in terms of
the sorted entry list. -/
theorem buildTrend_of_sort {results : List Entry} {first : Entry}
    {rest : List Entry} (hne : results ≠ [])
    (h : sortByDate results = first :: rest) :
    buildTrend results = some
      { testName := first.1.testName
        category := first.1.category
        unit := first.1.unit
        dataPoints := (first :: rest).map mkDataPoint
        currentStatus :=
          classifyTrend ((first :: rest).map mkDataPoint) first.1.status
        referenceRange := first.1.referenceRange.map
          (fun rr => { low := jsOrQ rr.low 0, high := jsOrQ rr.high 100 }) } := by
  unfold buildTrend
  rw [if_pos (show 1 ≤ results.length from List.length_pos.mpr hne), h]
  simp

/-- Master decomposition of `getLabTrends` membership: every emitted trend
comes from one group, whose entries are exactly the observations with its
key; the trend is the record built from the date-sorted group. -/
theorem getLabTrends_mem_spec {documents : List MedDoc} {t : LabTrend}
    (ht : t ∈ getLabTrends documents) :
    ∃ (k : Str) (gs : List Entry) (first : Entry) (rest : List Entry),
      gs = selEntries (collectEntries documents) k ∧
      sortByDate gs = first :: rest ∧
      first ∈ gs ∧ (∀ y ∈ gs, first.2 ≤ y.2) ∧
      k = lowerStr first.1.testName ∧
      t = { testName := first.1.testName
            category := first.1.category
            unit := first.1.unit
            dataPoints := (first :: rest).map mkDataPoint
            currentStatus :=
              classifyTrend ((first :: rest).map mkDataPoint) first.1.status
            referenceRange := first.1.referenceRange.map
              (fun rr => { low := jsOrQ rr.low 0, high := jsOrQ rr.high 100 }) } := by
  rw [getLabTrends, List.mem_filterMap] at ht
  obtain ⟨⟨k, gs⟩, hg, hb⟩ := ht
  obtain ⟨hnodup, hgroups, hcomplete⟩ := groupEntries_spec documents
  obtain ⟨hsel, hne⟩ := hgroups (k, gs) hg
  cases hs : sortByDate gs with
  | nil =>
      have := sortByDate_perm gs
      rw [hs] at this
      exact absurd this.symm.eq_nil hne
  | cons first rest =>
      obtain ⟨hmem, hmin⟩ := sortByDate_head_min hs
      have hkey : k = lowerStr first.1.testName := by
        have : (k, first) ∈ collectEntries documents := by
          rw [← selEntries_mem, ← hsel]
          exact hmem
        obtain ⟨doc, _, _, _, hk⟩ := collectEntries_mem.mp this
        exact hk
      rw [buildTrend_of_sort hne hs] at hb
      exact ⟨k, gs, first, rest, hsel, hs, hmem, hmin, hkey,
        (Option.some.inj hb).symm⟩

/-! ### Spec-side definition for the classification claim -/

/-- The trend classification exactly as the claim states it: with
`diff = recent.value − previous.value` and
`threshold = |previous.value| × 0.05`, the ordered rules
stable / improving / worsening / worsening-high-baseline /
worsening-low-baseline / stable. -/
def specClassify (recent previous : DataPoint) (firstStatus : Str) : Str :=
  let diff := recent.value - previous.value
  let threshold := |previous.value| * (5 / 100 : ℚ)
  if |diff| ≤ threshold then strL "stable"
  else if recent.status = strL "normal" ∧ previous.status ≠ strL "normal" then
    strL "improving"
  else if recent.status ≠ strL "normal" ∧ previous.status = strL "normal" then
    strL "worsening"
  else if 0 < diff ∧ firstStatus = strL "high" then strL "worsening"
  else if diff < 0 ∧ firstStatus = strL "low" then strL "worsening"
  else strL "stable"

theorem mkRat_5_100 : (mkRat 5 100 : ℚ) = 5 / 100 := by
  rw [Rat.mkRat_eq_div]
  norm_num

/-- The embedded classification agrees with the claim's rules whenever at
least two data points exist (`threshold = |previous.value * 0.05|` equals
the claim's `|previous.value| * 0.05`). -/
theorem classifyTrend_eq_spec (dps : List DataPoint) (fs : Str)
    (pre : List DataPoint) (p r : DataPoint) (h : dps = pre ++ [p, r]) :
    classifyTrend dps fs = specClassify r p fs := by
  have hsplit : dps = (pre ++ [p]) ++ [r] := by
    rw [h, List.append_assoc]
    rfl
  have hlast : dps.getLast? = some r := by
    rw [hsplit]
    exact List.getLast?_concat _
  have hprev : dps.dropLast.getLast? = some p := by
    rw [hsplit, List.dropLast_concat]
    exact List.getLast?_concat _
  rw [classifyTrend, hlast, hprev]
  rw [specClassify]
  simp only [qSub_eq, qAbs_eq, qMul_eq, qLe_iff, qLt_iff, mkRat_5_100,
    abs_mul, abs_of_nonneg (show (0 : ℚ) ≤ 5 / 100 by norm_num)]

/-- With a single data point the classification is `unknown`. -/
theorem classifyTrend_single (dp : DataPoint) (fs : Str) :
    classifyTrend [dp] fs = strL "unknown" := rfl

/-- The lower-cased test names of the emitted trends are exactly the
group keys, in order. -/
theorem getLabTrends_keys (documents : List MedDoc) :
    (getLabTrends documents).map (fun t => lowerStr t.testName) =
      (groupEntries documents).map Prod.fst := by
  obtain ⟨hnodup, hgroups, hcomplete⟩ := groupEntries_spec documents
  rw [getLabTrends]
  have aux : ∀ (l : List (Str × List Entry)),
      (∀ p ∈ l, p.2 = selEntries (collectEntries documents) p.1 ∧ p.2 ≠ []) →
      (l.filterMap (fun g => buildTrend g.2)).map (fun t => lowerStr t.testName) =
        l.map Prod.fst := by
    intro l
    induction l with
    | nil => intro _; rfl
    | cons p rest ih =>
        intro hl
        obtain ⟨hsel, hne⟩ := hl p (List.mem_cons_self _ _)
        cases hs : sortByDate p.2 with
        | nil =>
            have := sortByDate_perm p.2
            rw [hs] at this
            exact absurd this.symm.eq_nil hne
        | cons first rest2 =>
            have hb := buildTrend_of_sort hne hs
            rw [List.filterMap_cons, hb, List.map_cons, List.map_cons]
            have hkey : lowerStr first.1.testName = p.1 := by
              obtain ⟨hmem, _⟩ := sortByDate_head_min hs
              have : (p.1, first) ∈ collectEntries documents := by
                rw [← selEntries_mem, ← hsel]
                exact hmem
              obtain ⟨doc, _, _, _, hk⟩ := collectEntries_mem.mp this
              exact hk.symm
            rw [ih (fun q hq => hl q (List.mem_cons_of_mem _ hq))]
            rw [show lowerStr
                ({ testName := first.1.testName, category := first.1.category,
                   unit := first.1.unit,
                   dataPoints := (first :: rest2).map mkDataPoint,
                   currentStatus := classifyTrend ((first :: rest2).map mkDataPoint)
                     first.1.status,
                   referenceRange := first.1.referenceRange.map
                     (fun rr => { low := jsOrQ rr.low 0, high := jsOrQ rr.high 100 })
                   : LabTrend }).testName = p.1 from hkey]
            rfl
  exact aux _ hgroups

/-! ### Claim theorems: the trend engine -/

/-- C8: observations are grouped across all documents by lower-cased
`testName` (one trend per distinct key — observations differing only in
casing, unit or category merge into one trend); every trend's
`dataPoints` are sorted ascending by owning-document date; and the
trend's displayed `testName`/`unit`/`category` come from a chronologically
earliest observation of its group. -/
theorem c8_grouping (documents : List MedDoc) :
    (((getLabTrends documents).map (fun t => lowerStr t.testName)).Nodup) ∧
    (∀ doc ∈ documents, ∀ r ∈ doc.labResults,
        lowerStr r.testName ∈
          (getLabTrends documents).map (fun t => lowerStr t.testName)) ∧
    (∀ t ∈ getLabTrends documents,
        t.dataPoints.Pairwise (fun a b => a.date ≤ b.date)) ∧
    (∀ t ∈ getLabTrends documents,
        ∃ doc ∈ documents, ∃ r ∈ doc.labResults,
          t.testName = r.testName ∧ t.unit = r.unit ∧ t.category = r.category ∧
          lowerStr r.testName = lowerStr t.testName ∧
          ∀ doc2 ∈ documents, ∀ r2 ∈ doc2.labResults,
            lowerStr r2.testName = lowerStr t.testName →
            doc.date ≤ doc2.date) := by
  obtain ⟨hnodup, hgroups, hcomplete⟩ := groupEntries_spec documents
  refine ⟨?_, ?_, ?_, ?_⟩
  · rw [getLabTrends_keys]
    exact hnodup
  · intro doc hdoc r hr
    rw [getLabTrends_keys]
    exact hcomplete (lowerStr r.testName, (r, doc.date))
      (collectEntries_mem.mpr ⟨doc, hdoc, hr, rfl, rfl⟩)
  · intro t ht
    obtain ⟨k, gs, first, rest, hsel, hs, hmem, hmin, hkey, rfl⟩ :=
      getLabTrends_mem_spec ht
    have hp := sortByDate_pairwise gs
    rw [hs] at hp
    exact List.Pairwise.map mkDataPoint (fun a b hab => hab) hp
  · intro t ht
    obtain ⟨k, gs, first, rest, hsel, hs, hmem, hmin, hkey, rfl⟩ :=
      getLabTrends_mem_spec ht
    have hfc : (k, first) ∈ collectEntries documents := by
      rw [← selEntries_mem, ← hsel]
      exact hmem
    obtain ⟨doc, hdoc, hr, hd, _⟩ := collectEntries_mem.mp hfc
    refine ⟨doc, hdoc, first.1, hr, rfl, rfl, rfl, rfl, ?_⟩
    intro doc2 hdoc2 r2 hr2 hkey2
    have hc2 : (k, (r2, doc2.date)) ∈ collectEntries documents := by
      refine collectEntries_mem.mpr ⟨doc2, hdoc2, hr2, rfl, ?_⟩
      rw [hkey]
      exact hkey2.symm
    have : (r2, doc2.date) ∈ gs := by
      rw [hsel]
      exact selEntries_mem.mpr hc2
    have hle := hmin _ this
    rw [hd] at hle
    exact hle

/-- C1: for every emitted trend, with at least two data points the
`currentStatus` is classified by exactly the claimed ordered rules over
the last two data points (`recent`, `previous`) and the chronologically
first observation's status (which is the first data point's status, since
every observation of the group contributes a data point); with exactly one
data point it is `unknown`. -/
theorem c1_trend_classification {documents : List MedDoc} {t : LabTrend}
    (ht : t ∈ getLabTrends documents) :
    (t.dataPoints.length = 1 → t.currentStatus = strL "unknown") ∧
    (∀ pre p r, t.dataPoints = pre ++ [p, r] →
       ∀ d0 ds, t.dataPoints = d0 :: ds →
         t.currentStatus = specClassify r p d0.status) ∧
    (∀ d0 ds, t.dataPoints = d0 :: ds →
       ∃ doc ∈ documents, ∃ ob ∈ doc.labResults,
         lowerStr ob.testName = lowerStr t.testName ∧ ob.status = d0.status ∧
         ∀ doc2 ∈ documents, ∀ r2 ∈ doc2.labResults,
           lowerStr r2.testName = lowerStr t.testName →
           doc.date ≤ doc2.date) := by
  obtain ⟨k, gs, first, rest, hsel, hs, hmem, hmin, hkey, rfl⟩ :=
    getLabTrends_mem_spec ht
  refine ⟨?_, ?_, ?_⟩
  · intro hlen
    simp only [List.length_map, List.length_cons] at hlen
    have hrest : rest = [] := List.length_eq_zero.mp (by omega)
    subst hrest
    exact classifyTrend_single (mkDataPoint first) first.1.status
  · intro pre p r hsplit d0 ds hcons
    have hstat : d0.status = first.1.status := by
      have : d0 = mkDataPoint first := by
        have := congrArg List.head? hcons
        simp only [List.map_cons, List.head?_cons] at this
        exact (Option.some.inj this).symm
      rw [this]
      rfl
    show classifyTrend ((first :: rest).map mkDataPoint) first.1.status =
      specClassify r p d0.status
    rw [← hstat]
    exact classifyTrend_eq_spec _ _ pre p r hsplit
  · intro d0 ds hcons
    have hstat : d0.status = first.1.status := by
      have : d0 = mkDataPoint first := by
        have := congrArg List.head? hcons
        simp only [List.map_cons, List.head?_cons] at this
        exact (Option.some.inj this).symm
      rw [this]
      rfl
    have hfc : (k, first) ∈ collectEntries documents := by
      rw [← selEntries_mem, ← hsel]
      exact hmem
    obtain ⟨doc, hdoc, hr, hd, _⟩ := collectEntries_mem.mp hfc
    refine ⟨doc, hdoc, first.1, hr, rfl, hstat.symm, ?_⟩
    intro doc2 hdoc2 r2 hr2 hkey2
    have hc2 : (k, (r2, doc2.date)) ∈ collectEntries documents := by
      refine collectEntries_mem.mpr ⟨doc2, hdoc2, hr2, rfl, ?_⟩
      rw [hkey]
      exact hkey2.symm
    have : (r2, doc2.date) ∈ gs := by
      rw [hsel]
      exact selEntries_mem.mpr hc2
    have hle := hmin _ this
    rw [hd] at hle
    exact hle

/-- C7 (amended): a trend's `referenceRange` is present exactly when the
chronologically earliest observation of the group has a range; when
present, each bound passes through `|| default` truthiness: `low` is that
observation's low bound when present and nonzero, else `0`; `high` is its
high bound when present and nonzero, else `100` (so a present high bound
of `0` is replaced by `100`) — the bounds are not copied
unconditionally. -/
theorem c7_reference_range {documents : List MedDoc} {t : LabTrend}
    (ht : t ∈ getLabTrends documents) :
    ∃ doc ∈ documents, ∃ r ∈ doc.labResults,
      lowerStr r.testName = lowerStr t.testName ∧
      (∀ doc2 ∈ documents, ∀ r2 ∈ doc2.labResults,
          lowerStr r2.testName = lowerStr t.testName → doc.date ≤ doc2.date) ∧
      t.referenceRange = r.referenceRange.map
        (fun rr => { low := jsOrQ rr.low 0, high := jsOrQ rr.high 100 }) := by
  obtain ⟨k, gs, first, rest, hsel, hs, hmem, hmin, hkey, rfl⟩ :=
    getLabTrends_mem_spec ht
  have hfc : (k, first) ∈ collectEntries documents := by
    rw [← selEntries_mem, ← hsel]
    exact hmem
  obtain ⟨doc, hdoc, hr, hd, _⟩ := collectEntries_mem.mp hfc
  refine ⟨doc, hdoc, first.1, hr, rfl, ?_, rfl⟩
  intro doc2 hdoc2 r2 hr2 hkey2
  have hc2 : (k, (r2, doc2.date)) ∈ collectEntries documents := by
    refine collectEntries_mem.mpr ⟨doc2, hdoc2, hr2, rfl, ?_⟩
    rw [hkey]
    exact hkey2.symm
  have : (r2, doc2.date) ∈ gs := by
    rw [hsel]
    exact selEntries_mem.mpr hc2
  have hle := hmin _ this
  rw [hd] at hle
  exact hle

/-- A non-numeric observation (`value: "trace"`, `status: high`). -/
def rC2 : LabResult :=
  { testName := strL "Protein", value := .str (strL "trace"), unit := [],
    referenceRange := none, status := strL "high", category := strL "other" }

/-- C2 (code bug): the claim — non-numeric observations contribute zero
entries to `dataPoints`, and a group with zero numeric points emits no
trend — describes the dead `.filter((dp) => !isNaN(dp.value))` in the
source, whose effect is cancelled by the `|| 0` fallback.  Evaluating the
code on a group consisting solely of the non-numeric `"trace"`
observation: its parse is `NaN` (first conjunct), yet a trend **is**
emitted whose `dataPoints` contain one entry with the coerced value `0`
(second conjunct). -/
theorem c2_nonnumeric_included :
    jsParseFloat (strL "trace") = none ∧
    getLabTrends [{ date := 0, labResults := [rC2] }] =
      [{ testName := strL "Protein", category := strL "other", unit := [],
         dataPoints := [{ date := 0, value := 0, status := strL "high" }],
         currentStatus := strL "unknown", referenceRange := none }] :=
  ⟨rfl, rfl⟩

/-- An observation whose reference range has a display text but no
numeric bounds. -/
def rC7 : LabResult :=
  { testName := strL "Iron", value := .num 50, unit := strL "ug/dL",
    referenceRange := some { low := none, high := none, text := strL "see chart" },
    status := strL "unknown", category := strL "other" }

/-- C7 counterexample: the claim says the trend's `referenceRange` is
*copied* from the first observation's range when present.  For an
observation whose range has no numeric bounds (first conjunct), the
emitted trend reports the substituted defaults `{low: 0, high: 100}`
(second conjunct) — not a copy. -/
theorem c7_reference_range_counterexample :
    rC7.referenceRange =
      some { low := none, high := none, text := strL "see chart" } ∧
    getLabTrends [{ date := 0, labResults := [rC7] }] =
      [{ testName := strL "Iron", category := strL "other", unit := strL "ug/dL",
         dataPoints := [{ date := 0, value := 50, status := strL "unknown" }],
         currentStatus := strL "unknown",
         referenceRange := some { low := 0, high := 100 } }] :=
  ⟨rfl, rfl⟩

/-- First glucose observation for the C1 witness. -/
def gluA : LabResult :=
  { testName := strL "Glucose", value := .num 98, unit := strL "mg/dL",
    referenceRange := none, status := strL "normal", category := strL "metabolic" }

/-- Second glucose observation for the C1 witness. -/
def gluB : LabResult :=
  { testName := strL "Glucose", value := .num 100, unit := strL "mg/dL",
    referenceRange := none, status := strL "normal", category := strL "metabolic" }

/-- Two documents with a 98 → 100 glucose change. -/
def docsC1 : List MedDoc := [⟨100, [gluA]⟩, ⟨200, [gluB]⟩]

/-- The trend the code derives from `docsC1`. -/
def trendC1 : LabTrend :=
  { testName := strL "Glucose", category := strL "metabolic",
    unit := strL "mg/dL",
    dataPoints := [{ date := 100, value := 98, status := strL "normal" },
                   { date := 200, value := 100, status := strL "normal" }],
    currentStatus := strL "stable", referenceRange := none }

theorem trendC1_mem : trendC1 ∈ getLabTrends docsC1 := by
  rw [show getLabTrends docsC1 = [trendC1] from rfl]
  exact List.mem_singleton.mpr rfl

/-- C1 witness: the theorem applied to the 98 → 100 glucose trend — the
change is inside the 5% band, so the spec classification (and the code's
`currentStatus`) is `stable`. -/
theorem c1_trend_classification_witness :
    trendC1.currentStatus =
      specClassify { date := 200, value := 100, status := strL "normal" }
        { date := 100, value := 98, status := strL "normal" } (strL "normal") ∧
    trendC1.currentStatus = strL "stable" :=
  ⟨(c1_trend_classification trendC1_mem).2.1 []
      { date := 100, value := 98, status := strL "normal" }
      { date := 200, value := 100, status := strL "normal" } rfl
      { date := 100, value := 98, status := strL "normal" }
      [{ date := 200, value := 100, status := strL "normal" }] rfl,
    rfl⟩

/-- High-LDL observation, upper-case display name, later date. -/
def rLDL1 : LabResult :=
  { testName := strL "LDL", value := .num 145, unit := strL "mg/dL",
    referenceRange := none, status := strL "high", category := strL "lipid" }

/-- High-LDL observation, lower-case display name, earlier date. -/
def rLDL2 : LabResult :=
  { testName := strL "ldl", value := .num 120, unit := strL "mg/dl",
    referenceRange := none, status := strL "high", category := strL "lipid" }

/-- Two documents whose LDL observations differ only in display casing
and unit spelling; the later-dated document comes first in the list. -/
def docsC8 : List MedDoc := [⟨300, [rLDL1]⟩, ⟨100, [rLDL2]⟩]

/-- The single merged trend the code derives from `docsC8`: keyed `ldl`,
displayed fields from the chronologically earlier observation, data points
re-sorted ascending by date, classified `worsening` (rising from a `high`
baseline). -/
def trendC8 : LabTrend :=
  { testName := strL "ldl", category := strL "lipid", unit := strL "mg/dl",
    dataPoints := [{ date := 100, value := 120, status := strL "high" },
                   { date := 300, value := 145, status := strL "high" }],
    currentStatus := strL "worsening", referenceRange := none }

theorem trendC8_mem : trendC8 ∈ getLabTrends docsC8 := by
  rw [show getLabTrends docsC8 = [trendC8] from rfl]
  exact List.mem_singleton.mpr rfl

/-- C8 witness: the theorem applied to `docsC8` — both observations merge
into the one emitted trend (key present, keys nodup), and its data points
are date-sorted. -/
theorem c8_grouping_witness :
    getLabTrends docsC8 = [trendC8] ∧
    lowerStr rLDL1.testName ∈
      (getLabTrends docsC8).map (fun t => lowerStr t.testName) ∧
    ((getLabTrends docsC8).map (fun t => lowerStr t.testName)).Nodup ∧
    trendC8.dataPoints.Pairwise (fun a b => a.date ≤ b.date) :=
  ⟨rfl,
   (c8_grouping docsC8).2.1 ⟨300, [rLDL1]⟩ (List.mem_cons_self _ _) rLDL1
     (List.mem_singleton.mpr rfl),
   (c8_grouping docsC8).1,
   (c8_grouping docsC8).2.2.1 trendC8 trendC8_mem⟩

/-- An observation with nonzero numeric bounds `{low: 60, high: 110}`,
which the `||`-defaults pass through unchanged. -/
def rC7w : LabResult :=
  { testName := strL "Glucose", value := .num 95, unit := strL "mg/dL",
    referenceRange := some { low := some 60, high := some 110, text := [] },
    status := strL "normal", category := strL "metabolic" }

/-- One document carrying `rC7w`. -/
def docsC7 : List MedDoc := [⟨50, [rC7w]⟩]

/-- The trend the code derives from `docsC7`. -/
def trendC7 : LabTrend :=
  { testName := strL "Glucose", category := strL "metabolic",
    unit := strL "mg/dL",
    dataPoints := [{ date := 50, value := 95, status := strL "normal" }],
    currentStatus := strL "unknown",
    referenceRange := some { low := 60, high := 110 } }

theorem trendC7_mem : trendC7 ∈ getLabTrends docsC7 := by
  rw [show getLabTrends docsC7 = [trendC7] from rfl]
  exact List.mem_singleton.mpr rfl

/-- An observation with a present-but-zero high bound, which the falsy
`|| 100` default replaces by `100` (while the zero low bound stays `0`). -/
def rC7z : LabResult :=
  { testName := strL "Anion gap", value := .num 12, unit := strL "mmol/L",
    referenceRange := some { low := some 0, high := some 0, text := [] },
    status := strL "normal", category := strL "metabolic" }

/-- One document carrying `rC7z`. -/
def docsC7z : List MedDoc := [⟨60, [rC7z]⟩]

/-- The trend the code derives from `docsC7z`: the zero high bound is
falsy, so the displayed range becomes `{low: 0, high: 100}`. -/
def trendC7z : LabTrend :=
  { testName := strL "Anion gap", category := strL "metabolic",
    unit := strL "mmol/L",
    dataPoints := [{ date := 60, value := 12, status := strL "normal" }],
    currentStatus := strL "unknown",
    referenceRange := some { low := 0, high := 100 } }

theorem trendC7z_mem : trendC7z ∈ getLabTrends docsC7z := by
  rw [show getLabTrends docsC7z = [trendC7z] from rfl]
  exact List.mem_singleton.mpr rfl

/-- C7 witness: the amended claim instantiated at `docsC7` (nonzero
bounds pass through) and at `docsC7z` (a present high bound of `0` is
falsy and becomes `100`). -/
theorem c7_reference_range_witness :
    (∃ doc ∈ docsC7, ∃ r ∈ doc.labResults,
      lowerStr r.testName = lowerStr trendC7.testName ∧
      (∀ doc2 ∈ docsC7, ∀ r2 ∈ doc2.labResults,
          lowerStr r2.testName = lowerStr trendC7.testName →
          doc.date ≤ doc2.date) ∧
      trendC7.referenceRange = r.referenceRange.map
        (fun rr => { low := jsOrQ rr.low 0, high := jsOrQ rr.high 100 })) ∧
    (∃ doc ∈ docsC7z, ∃ r ∈ doc.labResults,
      lowerStr r.testName = lowerStr trendC7z.testName ∧
      (∀ doc2 ∈ docsC7z, ∀ r2 ∈ doc2.labResults,
          lowerStr r2.testName = lowerStr trendC7z.testName →
          doc.date ≤ doc2.date) ∧
      trendC7z.referenceRange = r.referenceRange.map
        (fun rr => { low := jsOrQ rr.low 0, high := jsOrQ rr.high 100 })) :=
  ⟨c7_reference_range trendC7_mem, c7_reference_range trendC7z_mem⟩

/-! ### Helper lemmas: fence stripping -/

/-- Wrap a body in the ```json fenced-code markers (with newlines), as the
upstream model emits them. -/
def fenceWrap (s : Str) : Str :=
  strL "```json" ++ ['\n'] ++ s ++ (['\n'] ++ strL "```")

theorem recoverJson_ok_parse {t : Str} {v : Json} (h : jsonParse t = some v) :
    recoverJson t = .ok v := by
  unfold recoverJson
  rw [h]

theorem recoverJson_none_parse {t : Str} (h : jsonParse t = none) :
    recoverJson t = recoverSpan (braceSpan t) := by
  unfold recoverJson
  rw [h]

theorem recoverSpan_some (sp : Str) :
    recoverSpan (some sp) =
      (match jsonParse sp with
       | some v => Except.ok v
       | none => Except.error NormError.syntaxError) := rfl

theorem parseExtractionResponse_of_ok {today s : Str} {v : Json}
    (h : recoverJson (strip s) = .ok v) :
    parseExtractionResponse today s = parseExtractionData today v := by
  unfold parseExtractionResponse
  rw [h]

theorem parseExtractionResponse_of_err {today s : Str} {e : NormError}
    (h : recoverJson (strip s) = .error e) :
    parseExtractionResponse today s = .error e := by
  unfold parseExtractionResponse
  rw [h]

theorem trimJs_cons_nl (y : Str) : trimJs ('\n' :: y) = trimJs y := by
  unfold trimJs
  rw [List.dropWhile_cons_of_pos (show isTrimWs '\n' = true by decide)]

theorem trimJs_append_nl (x : Str) : trimJs (x ++ ['\n']) = trimJs x := by
  unfold trimJs
  rw [List.dropWhile_append]
  cases hx : (x.dropWhile isTrimWs).isEmpty with
  | true =>
      have hx2 : x.dropWhile isTrimWs = [] := by
        cases h : x.dropWhile isTrimWs
        · rfl
        · rw [h] at hx
          exact absurd hx (by simp [List.isEmpty])
      rw [if_pos rfl, hx2]
      rfl
  | false =>
      rw [if_neg (show ¬(false = true) by decide)]
      unfold dropWhileEndCh
      rw [List.reverse_append,
        show (['\n'] : Str).reverse = ['\n'] from rfl,
        List.singleton_append,
        List.dropWhile_cons_of_pos (show isTrimWs '\n' = true by decide)]

theorem trimJs_fenceWrap (s : Str) : trimJs (fenceWrap s) = fenceWrap s := by
  have h1 : (fenceWrap s).dropWhile isTrimWs = fenceWrap s := rfl
  have h2 : List.dropWhile isTrimWs ((fenceWrap s).reverse) = (fenceWrap s).reverse := by
    have hrev : (fenceWrap s).reverse =
        (strL "```").reverse ++ (['\n'] ++ (s.reverse ++
          (['\n'] ++ (strL "```json").reverse))) := by
      simp [fenceWrap]
    rw [hrev]
    rfl
  unfold trimJs dropWhileEndCh
  rw [h1, h2, List.reverse_reverse]

/-- The string `"```"` is a prefix of `"```json"`. -/
theorem fence3_prefix_fence7 : (strL "```") <+: (strL "```json") :=
  ⟨strL "json", rfl⟩

/-- Fence-stripping is the identity on a trimmed, unfenced body. -/
theorem strip_of_unfenced {s : Str} (h0 : trimJs s = s)
    (h1 : (strL "```").isPrefixOf s = false)
    (h2 : (strL "```").isSuffixOf s = false) :
    strip s = s := by
  have hjson : (strL "```json").isPrefixOf s = false := by
    cases hj : (strL "```json").isPrefixOf s
    · rfl
    · have hp : (strL "```") <+: s :=
        fence3_prefix_fence7.trans (List.isPrefixOf_iff_prefix.mp hj)
      rw [List.isPrefixOf_iff_prefix.mpr hp] at h1
      exact absurd h1 (by decide)
  unfold strip
  rw [h0, stripFence7, hjson, if_neg (show ¬(false = true) by decide),
    stripFence3, h1, if_neg (show ¬(false = true) by decide),
    stripFenceEnd, h2, if_neg (show ¬(false = true) by decide), h0]

/-- Fence-stripping a fenced body recovers the trimmed body. -/
theorem strip_fenceWrap {s : Str} (h0 : trimJs s = s) :
    strip (fenceWrap s) = s := by
  unfold strip
  rw [trimJs_fenceWrap]
  have hpre : (strL "```json").isPrefixOf (fenceWrap s) = true := by
    rw [List.isPrefixOf_iff_prefix]
    refine ⟨['\n'] ++ s ++ (['\n'] ++ strL "```"), ?_⟩
    unfold fenceWrap
    simp [List.append_assoc]
  have hdrop : (fenceWrap s).drop 7 = ['\n'] ++ s ++ (['\n'] ++ strL "```") := by
    unfold fenceWrap
    rw [show strL "```json" ++ ['\n'] ++ s ++ (['\n'] ++ strL "```") =
        strL "```json" ++ (['\n'] ++ s ++ (['\n'] ++ strL "```")) by
      simp [List.append_assoc]]
    exact List.drop_left' rfl
  rw [stripFence7, hpre, if_pos rfl, hdrop]
  have hpre2 : (strL "```").isPrefixOf (['\n'] ++ s ++ (['\n'] ++ strL "```")) = false := rfl
  rw [stripFence3, hpre2, if_neg (show ¬(false = true) by decide)]
  have hsuf : (strL "```").isSuffixOf (['\n'] ++ s ++ (['\n'] ++ strL "```")) = true := by
    rw [List.isSuffixOf_iff_suffix]
    refine ⟨['\n'] ++ s ++ ['\n'], ?_⟩
    simp [List.append_assoc]
  rw [stripFenceEnd, hsuf, if_pos rfl]
  have htake : (['\n'] ++ s ++ (['\n'] ++ strL "```")).take
      ((['\n'] ++ s ++ (['\n'] ++ strL "```")).length - 3) =
      ['\n'] ++ s ++ ['\n'] := by
    rw [show ['\n'] ++ s ++ (['\n'] ++ strL "```") =
        (['\n'] ++ s ++ ['\n']) ++ strL "```" by simp [List.append_assoc]]
    rw [List.length_append, show (strL "```").length = 3 from rfl,
      Nat.add_sub_cancel]
    exact List.take_left' rfl
  rw [htake, show ['\n'] ++ s ++ ['\n'] = '\n' :: (s ++ ['\n']) by simp,
    trimJs_cons_nl, trimJs_append_nl]
  exact h0

/-! ### Claim theorems: parseExtractionResponse failure semantics -/

/-- C3 (amended): after trimming and fence-stripping, normalization
recovers a JSON value by `JSON.parse`, falling back to the outermost
`{...}` span.  The `MalformedExtraction` error is raised **exactly** when
that parse fails and no `{...}` span exists (e.g. for the literal
`"I cannot read this document."`); a span that exists but fails to parse
propagates the `JSON.parse` syntax error instead; a recovered JSON `null`
fails with a property-access `TypeError`; and a parseable non-object
value normalizes successfully — so failure is not equivalent to "no JSON
object can be recovered".  Fenced input whose trimmed body carries no
fence markers of its own normalizes identically to the unwrapped body. -/
theorem c3_malformed_extraction :
    (∀ today : Str,
        parseExtractionResponse today (strL "I cannot read this document.") =
          .error .malformedExtraction) ∧
    (∀ (today s : Str),
        parseExtractionResponse today s = .error .malformedExtraction ↔
          jsonParse (strip s) = none ∧ braceSpan (strip s) = none) ∧
    (∀ (today s sp : Str), jsonParse (strip s) = none →
        braceSpan (strip s) = some sp → jsonParse sp = none →
        parseExtractionResponse today s = .error .syntaxError) ∧
    (∀ (today s : Str), jsonParse (strip s) = some .null →
        parseExtractionResponse today s = .error .typeError) ∧
    (∀ s : Str, trimJs s = s → (strL "```").isPrefixOf s = false →
        (strL "```").isSuffixOf s = false → ∀ today : Str,
        parseExtractionResponse today (fenceWrap s) =
          parseExtractionResponse today s) := by
  refine ⟨fun today => rfl, ?_, ?_, ?_, ?_⟩
  · intro today s
    cases hj : jsonParse (strip s) with
    | some v =>
        rw [parseExtractionResponse_of_ok (recoverJson_ok_parse hj)]
        apply iff_of_false
        · intro h
          exact NormError.noConfusion (parseExtractionData_error h)
        · rintro ⟨h1, _⟩
          exact Option.noConfusion h1
    | none =>
        cases hb : braceSpan (strip s) with
        | none =>
            rw [parseExtractionResponse_of_err
              (by rw [recoverJson_none_parse hj, hb]; rfl)]
            exact iff_of_true rfl ⟨rfl, rfl⟩
        | some sp =>
            cases hsp : jsonParse sp with
            | none =>
                rw [parseExtractionResponse_of_err
                  (by rw [recoverJson_none_parse hj, hb, recoverSpan_some, hsp])]
                apply iff_of_false
                · intro h
                  exact NormError.noConfusion (Except.error.inj h)
                · rintro ⟨_, h2⟩
                  exact Option.noConfusion h2
            | some v =>
                rw [parseExtractionResponse_of_ok
                  (by rw [recoverJson_none_parse hj, hb, recoverSpan_some, hsp])]
                apply iff_of_false
                · intro h
                  exact NormError.noConfusion (parseExtractionData_error h)
                · rintro ⟨_, h2⟩
                  exact Option.noConfusion h2
  · intro today s sp h1 h2 h3
    rw [parseExtractionResponse_of_err
      (by rw [recoverJson_none_parse h1, h2, recoverSpan_some, h3])]
  · intro today s h
    rw [parseExtractionResponse_of_ok (recoverJson_ok_parse h)]
    rfl
  · intro s h0 h1 h2 today
    unfold parseExtractionResponse
    rw [strip_fenceWrap h0, strip_of_unfenced h0 h1 h2]

/-- C3 counterexample: the claim says normalization fails with
`MalformedExtraction` exactly when both attempts fail to yield a
parseable JSON *object*, and that this is the only failing case.  For the
input `"42"`, `JSON.parse` yields the number `42` — not an object — and
no `{...}` span exists, yet normalization *succeeds* (with every field
defaulted) instead of failing. -/
theorem c3_malformed_extraction_counterexample :
    (parseExtractionResponse (strL "2026-01-01") (strL "42")).isOk = true ∧
    jsonParse (strip (strL "42")) = some (.num 42) ∧
    (∀ fs, Json.num 42 ≠ Json.obj fs) ∧
    braceSpan (strip (strL "42")) = none :=
  ⟨rfl, rfl, fun _ h => Json.noConfusion h, rfl⟩

/-- The fenced JSON body used in the C3 witness. -/
def jsonBodyC3 : Str := strL "\x7b\"documentType\":\"lab_report\"\x7d"

/-- C3 witness: the amended theorem applied at the literal refusal string
(`MalformedExtraction`, with both recovery attempts failing) and at a
concrete fenced JSON object (normalizing identically to the unwrapped
body). -/
theorem c3_malformed_extraction_witness :
    parseExtractionResponse (strL "2026-01-01")
        (strL "I cannot read this document.") = .error .malformedExtraction ∧
    (jsonParse (strip (strL "I cannot read this document.")) = none ∧
      braceSpan (strip (strL "I cannot read this document.")) = none) ∧
    parseExtractionResponse (strL "2026-01-01") (fenceWrap jsonBodyC3) =
      parseExtractionResponse (strL "2026-01-01") jsonBodyC3 :=
  ⟨c3_malformed_extraction.1 (strL "2026-01-01"),
   (c3_malformed_extraction.2.1 (strL "2026-01-01")
       (strL "I cannot read this document.")).mp
     (c3_malformed_extraction.1 (strL "2026-01-01")),
   c3_malformed_extraction.2.2.2.2 jsonBodyC3 rfl rfl rfl (strL "2026-01-01")⟩

end MedLens
